import Mathlib

/-!
Verification development for the radix-colors-tailwind generator.

The TypeScript sources are shallowly embedded below.  String-processing
code is translated to functions over `List Char` (wrapped in `String`),
JS objects that preserve insertion order become association lists, and
the JS stable `Array.prototype.sort` becomes a stable insertion sort.
The IEEE-754 double arithmetic of the colour-space converter is modelled
by fixed-point integer arithmetic at scale 10^30 (see `FP` below): every
value the pipeline finally prints is rounded to 3 decimal places, and
for every concrete literal appearing in a theorem the underlying real
value is at least 3.9e-6 away from a rounding boundary, while the double
error is below 1e-10 and the fixed-point error below 1e-20, so the
rounded results of the double computation and of this model coincide.
-/

namespace Radix

/-! ## JS string primitives over `List Char` -/

/-- The whitespace class used by JS `trim`, `\s` (ASCII part; the source
files only contain ASCII whitespace). -/
def jsIsSpace (c : Char) : Bool :=
  c = ' ' || c = '\t' || c = '\n' || c = '\r' || c = '\x0b' || c = '\x0c'

/-- JS `String.prototype.trim`. -/
def jsTrimL (l : List Char) : List Char :=
  (((l.dropWhile jsIsSpace).reverse).dropWhile jsIsSpace).reverse

def jsTrim (s : String) : String :=
  String.mk (jsTrimL s.data)

/-- `a.startsWith b`. -/
def strStartsWith (a b : String) : Bool :=
  b.data.isPrefixOf a.data

/-- `a.endsWith b`. -/
def strEndsWith (a b : String) : Bool :=
  b.data.reverse.isPrefixOf a.data.reverse

/-- `a.includes b` (substring test). -/
def strIncludes (a b : String) : Bool :=
  decide (b.data <:+: a.data)

/-- Substring containment as a proposition (used in theorem statements). -/
def strContains (a b : String) : Prop :=
  b.data <:+: a.data

instance (a b : String) : Decidable (strContains a b) := by
  unfold strContains; infer_instance

/-- Number of occurrences of a character, as in `(s.match(/\x7b/g) || []).length`. -/
def countChar (c : Char) (s : String) : Int :=
  Int.ofNat (s.data.countP (fun d => d = c))

/-- `text.split(sep)` for a one-character separator. -/
def splitChar (sep : Char) (l : List Char) : List (List Char) :=
  match l with
  | [] => [[]]
  | c :: rest =>
    let r := splitChar sep rest
    if c = sep then
      [] :: r
    else
      match r with
      | [] => [[c]]
      | h :: t => (c :: h) :: t

def jsSplit (sep : Char) (s : String) : List String :=
  (splitChar sep s.data).map String.mk

/-- Join with a separator, as in `lines.join("\n")`. -/
def joinSep (sep : String) : List String → String
  | [] => ""
  | [x] => x
  | x :: y :: t => x ++ sep ++ joinSep sep (y :: t)

/-- JS `a.localeCompare(b)`, modelled as code-point lexicographic
comparison returning -1/0/1 (the exact ICU collation is locale-dependent;
the identifiers compared here are ASCII CSS custom-property names, for
which code-point order is the natural lexical order). -/
def lexCompareL : List Char → List Char → Int
  | [], [] => 0
  | [], _ :: _ => -1
  | _ :: _, [] => 1
  | a :: as', b :: bs' =>
    if a.toNat < b.toNat then -1
    else if b.toNat < a.toNat then 1
    else lexCompareL as' bs'

def jsLocaleCompare (a b : String) : Int :=
  lexCompareL a.data b.data

/-! ## character classes and digit parsing -/

def isDigitCh (c : Char) : Bool := 47 < c.toNat && c.toNat < 58

def isLowerCh (c : Char) : Bool := 96 < c.toNat && c.toNat < 123

/-- JS `\w` (word character): letters, digits and the underscore. -/
def isWordCh (c : Char) : Bool :=
  isLowerCh c || (64 < c.toNat && c.toNat < 91) || isDigitCh c || c = '_'

def digitVal (c : Char) : Nat := c.toNat - 48

def hexDigitVal (c : Char) : Option Nat :=
  if isDigitCh c then some (digitVal c)
  else
    let n := c.toNat
    if 96 < n && n < 103 then some (n - 87)
    else if 64 < n && n < 71 then some (n - 55)
    else none

/-- Decimal value of a nonempty all-digit run (`parseInt(s, 10)` on a
string of digits). -/
def digitsToNat (l : List Char) : Nat :=
  l.foldl (fun acc c => acc * 10 + digitVal c) 0

/-! ## sortVarNames  (src/scripts/utils/sorting.ts) -/

/-- Match against `/^--[a-z]+(?:-[a-z]+)*-(\d+|a\d+)$/` and return the
captured index part.  The stem segments are runs of lowercase letters
separated by single hyphens, so the regex (with its backtracking)
matches exactly when: the name starts with `--`, splitting the rest on
`-` yields at least two segments, all but the last are nonempty and all
lowercase, and the last is `\d+` or `a\d+`. -/
def svnIndexOf (s : String) : Option String :=
  match s.data with
  | '-' :: '-' :: rest =>
    match (splitChar '-' rest).reverse with
    | [] => none
    | last :: stems =>
      if stems.isEmpty then none
      else if !stems.all (fun seg => !seg.isEmpty && seg.all isLowerCh) then none
      else if !last.isEmpty && last.all isDigitCh then some (String.mk last)
      else if last.headD ' ' = 'a' && !(last.drop 1).isEmpty && (last.drop 1).all isDigitCh then
        some (String.mk last)
      else none
  | _ => none

/-- `index.startsWith("a")`. -/
def idxIsAlpha (idx : String) : Bool :=
  strStartsWith idx "a"

/-- `parseInt(aIsAlpha ? aIndex.substring(1) : aIndex, 10)`, with `none`
modelling `NaN`. -/
def idxParseNum (idx : String) (isAlpha : Bool) : Option Nat :=
  let ds := if isAlpha then idx.data.drop 1 else idx.data
  if !ds.isEmpty && ds.all isDigitCh then some (digitsToNat ds) else none

/-- `sortVarNames` from src/scripts/utils/sorting.ts. -/
def sortVarNames (a b : String) : Int :=
  match svnIndexOf a, svnIndexOf b with
  | some aIndex, some bIndex =>
    let aIsAlpha := idxIsAlpha aIndex
    let bIsAlpha := idxIsAlpha bIndex
    if aIsAlpha ≠ bIsAlpha then
      (if aIsAlpha then 1 else -1)
    else
      match idxParseNum aIndex aIsAlpha, idxParseNum bIndex bIsAlpha with
      | some numA, some numB => (numA : Int) - (numB : Int)
      | _, _ => jsLocaleCompare a b
  | _, _ => jsLocaleCompare a b

/-- Stable insertion of an element into a list sorted by a JS
comparator: the new element goes after every existing element that does
not compare strictly greater, which is how a stable sort orders ties. -/
def insertCmp (cmp : String → String → Int) (x : String) : List String → List String
  | [] => [x]
  | y :: t => if cmp x y ≤ 0 then x :: y :: t else y :: insertCmp cmp x t

/-- Model of the stable `Array.prototype.sort(cmp)`: a stable insertion
sort.  For a consistent comparator (as in every sort the generator
performs) any stable sort produces this unique result. -/
def jsSortStable (cmp : String → String → Int) : List String → List String
  | [] => []
  | x :: t => insertCmp cmp x (jsSortStable cmp t)

end Radix

namespace Radix

/-! ## Fixed-point numeric kernel

The converter's double-precision arithmetic is modelled at scale
`fpS = 10^30`: an `Int` value `n` stands for the real number `n / fpS`.
Multiplication, division and the root/arctangent routines floor their
results at this scale, so each operation carries an absolute error below
`10^-30`; a whole conversion stays within `10^-20` of the exact real
value, far below both the 3-decimal output rounding and the distance of
every concrete value in this file from a rounding boundary. -/

def ipow (b : Int) : Nat → Int
  | 0 => 1
  | n + 1 => b * ipow b n

def fpS : Int := ipow 10 30

def fpOfInt (n : Int) : Int := n * fpS

/-- Decimal constant with `d` decimal places: `fpDec 4045 5 = 0.04045`. -/
def fpDec (m : Nat) (d : Nat) : Int := (m : Int) * ipow 10 (30 - d)

def fpMul (a b : Int) : Int := (a * b).fdiv fpS

def fpDiv (a b : Int) : Int := (a * fpS).fdiv b

/-- Greatest `n` with `n^k ≤ target`, by binary search on `[lo, hi)`
with the invariant `lo^k ≤ target < hi^k`. -/
def fpRootAux (k : Nat) (target : Int) : Nat → Int → Int → Int
  | 0, lo, _ => lo
  | fuel + 1, lo, hi =>
    if hi - lo ≤ 1 then lo
    else
      let mid := (lo + hi).fdiv 2
      if ipow mid k ≤ target then fpRootAux k target fuel mid hi
      else fpRootAux k target fuel lo mid

/-- `k`-th root of a nonnegative fixed-point value (floored at scale
`fpS`); `0` on nonpositive input, matching the guarded uses below. -/
def fpRoot (k : Nat) (y : Int) : Int :=
  if y ≤ 0 then 0 else fpRootAux k (y * ipow fpS (k - 1)) 120 0 (fpS + y)

def fpSqrt (y : Int) : Int := fpRoot 2 y

def fpCbrt (y : Int) : Int := fpRoot 3 y

/-- `x^2.4 = (x^12)^(1/5)` for `x ∈ [0, 1]`, the power used by the
piecewise sRGB transfer function. -/
def fpPowN (x : Int) : Nat → Int
  | 0 => fpS
  | n + 1 => fpMul x (fpPowN x n)

def fpPow24 (x : Int) : Int := fpRoot 5 (fpPowN x 12)

/-- `π` at scale `10^30` (3.14159265358979323846264338327950...). -/
def piFp : Int := 3141592653589793238462643383280

/-- Alternating Maclaurin series for `atan` on a reduced argument:
`t - t³/3 + t⁵/5 - ...`, twelve terms. -/
def atanSeriesAux (t2 : Int) : Nat → Nat → Int → Bool → Int
  | 0, _, _, _ => 0
  | fuel + 1, oddIdx, tpow, pos =>
    let term := tpow.fdiv (Int.ofNat oddIdx)
    (if pos then term else -term) + atanSeriesAux t2 fuel (oddIdx + 2) (fpMul tpow t2) (!pos)

def fpAtanSmall (t : Int) : Int := atanSeriesAux (fpMul t t) 12 1 t true

/-- Halve the arctangent argument: `atan t = 2 atan (t / (1 + √(1+t²)))`;
the result is always in `(-1, 1)`, and six halvings bring any argument
below 0.025 where the series converges rapidly. -/
def fpHalveArg (t : Int) : Int := fpDiv t (fpS + fpSqrt (fpS + fpMul t t))

def fpAtan (t : Int) : Int :=
  let t1 := fpHalveArg t
  let t2 := fpHalveArg t1
  let t3 := fpHalveArg t2
  let t4 := fpHalveArg t3
  let t5 := fpHalveArg t4
  let t6 := fpHalveArg t5
  64 * fpAtanSmall t6

/-- `Math.atan2(y, x)` (radians). -/
def fpAtan2 (y x : Int) : Int :=
  if 0 < x then fpAtan (fpDiv y x)
  else if x < 0 then
    (if 0 ≤ y then fpAtan (fpDiv y x) + piFp else fpAtan (fpDiv y x) - piFp)
  else if 0 < y then piFp.fdiv 2
  else if y < 0 then -(piFp.fdiv 2)
  else 0

/-- `Math.round(x)` on a fixed-point value (half away from zero is half
toward `+∞` in JS: `floor(x + 0.5)`). -/
def jsRound (x : Int) : Int := (x + fpS.fdiv 2).fdiv fpS

/-- `Math.round(x * 1000)`, the 3-decimal rounding step, as an integer
count of thousandths. -/
def round3 (x : Int) : Int := (x * 1000 + fpS.fdiv 2).fdiv fpS

/-! ## Decimal rendering (JS `Number.prototype.toString` for the
rounded values, which are exact multiples of 0.001 below 10^15) -/

def natToStrAux : Nat → Nat → List Char → List Char
  | 0, _, acc => acc
  | fuel + 1, n, acc =>
    let d := Char.ofNat (n % 10 + '0'.toNat)
    if n < 10 then d :: acc else natToStrAux fuel (n / 10) (d :: acc)

def natToStr (n : Nat) : String := String.mk (natToStrAux 40 n [])

/-- Render `m / 1000` the way JS prints the corresponding double:
integer part, then a fractional part with trailing zeros stripped. -/
def fmtThousandthsN (m : Nat) : String :=
  let ip := m / 1000
  let fp' := m % 1000
  if fp' = 0 then natToStr ip
  else
    let d1 := fp' / 100
    let d2 := fp' / 10 % 10
    let d3 := fp' % 10
    let frac :=
      if d3 ≠ 0 then [Char.ofNat (d1 + 48), Char.ofNat (d2 + 48), Char.ofNat (d3 + 48)]
      else if d2 ≠ 0 then [Char.ofNat (d1 + 48), Char.ofNat (d2 + 48)]
      else [Char.ofNat (d1 + 48)]
    natToStr ip ++ "." ++ String.mk frac

def fmtThousandths (n : Int) : String :=
  if n < 0 then "-" ++ fmtThousandthsN n.natAbs else fmtThousandthsN n.toNat

/-! ## Colour conversions  (src/scripts/utils/color-conversions.ts) -/

/-- The piecewise sRGB-to-linear transfer function
`c <= 0.04045 ? c / 12.92 : ((c + 0.055) / 1.055) ** 2.4`. -/
def srgbToLinear (c : Int) : Int :=
  if c ≤ fpDec 4045 5 then fpDiv c (fpDec 1292 2)
  else fpPow24 (fpDiv (c + fpDec 55 3) (fpDec 1055 3))

/-- The shared RGB→OKLCH core, inlined three times in the source
(hex, RGBA and HSLA converters all repeat this block verbatim): inputs
are the R,G,B components on the 0..255 scale as fixed-point values;
result is `(L_rounded, C_rounded, hue_rounded)` in thousandths. -/
def rgbToOklchRounded (rC gC bC : Int) : Int × Int × Int :=
  let rNorm := fpDiv rC (fpOfInt 255)
  let gNorm := fpDiv gC (fpOfInt 255)
  let bNorm := fpDiv bC (fpOfInt 255)
  let rLin := srgbToLinear rNorm
  let gLin := srgbToLinear gNorm
  let bLin := srgbToLinear bNorm
  let lms1 := fpMul (fpDec 4122214708 10) rLin + fpMul (fpDec 5363325363 10) gLin +
      fpMul (fpDec 514459929 10) bLin
  let lms2 := fpMul (fpDec 2119034982 10) rLin + fpMul (fpDec 6806995451 10) gLin +
      fpMul (fpDec 1073969566 10) bLin
  let lms3 := fpMul (fpDec 883024619 10) rLin + fpMul (fpDec 2817188376 10) gLin +
      fpMul (fpDec 6299787005 10) bLin
  let lRoot := fpCbrt (max 0 lms1)
  let mRoot := fpCbrt (max 0 lms2)
  let sRoot := fpCbrt (max 0 lms3)
  let lOk := fpMul (fpDec 2104542553 10) lRoot + fpMul (fpDec 793617785 9) mRoot -
      fpMul (fpDec 40720468 10) sRoot
  let aOk := fpMul (fpDec 19779984951 10) lRoot - fpMul (fpDec 2428592205 9) mRoot +
      fpMul (fpDec 4505937099 10) sRoot
  let bOk := fpMul (fpDec 259040371 10) lRoot + fpMul (fpDec 7827717662 10) mRoot -
      fpMul (fpDec 808675766 9) sRoot
  let chroma := fpSqrt (fpMul aOk aOk + fpMul bOk bOk)
  let hue :=
    if fpDec 1 5 < chroma then
      let h := fpDiv (fpAtan2 bOk aOk * 180) piFp
      if h < 0 then h + fpOfInt 360 else h
    else 0
  (round3 lOk, round3 chroma, round3 hue)

/-- Space-separated `"L C H"` text for the rounded triple. -/
def oklchTextOf (t : Int × Int × Int) : String :=
  fmtThousandths t.1 ++ " " ++ fmtThousandths t.2.1 ++ " " ++ fmtThousandths t.2.2

/-- `parseInt(s, 16)`: optional whitespace and sign, optional `0x`
prefix, then a maximal run of hex digits; `none` models `NaN`. -/
def jsParseIntHexL (l : List Char) : Option Int :=
  let l1 := l.dropWhile jsIsSpace
  let signNeg := l1.headD ' ' = '-'
  let l2 := if l1.headD ' ' = '-' || l1.headD ' ' = '+' then l1.drop 1 else l1
  let l3 :=
    match l2 with
    | '0' :: 'x' :: r => r
    | '0' :: 'X' :: r => r
    | r => r
  let ds := l3.takeWhile (fun c => (hexDigitVal c).isSome)
  if ds.isEmpty then none
  else
    let v := ds.foldl (fun acc c => acc * 16 + ((hexDigitVal c).getD 0)) 0
    some (if signNeg then -(v : Int) else (v : Int))

/-- `/.{2}/g`: consecutive non-overlapping pairs (a trailing odd
character yields no match). -/
def chunk2 : List Char → List (List Char)
  | a :: b :: rest => [a, b] :: chunk2 rest
  | _ => []

/-- `hexToOklchString` from color-conversions.ts; `Except` models the
thrown errors. -/
def hexToOklchString (hexCode : String) : Except String String :=
  if !(strStartsWith hexCode "#") || (hexCode.data.length ≠ 7 && hexCode.data.length ≠ 9) then
    .error ("Invalid hex code format: " ++ hexCode)
  else
    let hexPairs := chunk2 (hexCode.data.drop 1)
    match hexPairs with
    | p0 :: p1 :: p2 :: _ =>
      match jsParseIntHexL p0, jsParseIntHexL p1, jsParseIntHexL p2 with
      | some r, some g, some b =>
        .ok (oklchTextOf (rgbToOklchRounded (fpOfInt r) (fpOfInt g) (fpOfInt b)))
      | _, _, _ =>
        .error ("Invalid hex code format (contains non-hex characters): " ++ hexCode)
    | _ => .error ("Invalid hex code format: " ++ hexCode)

/-- `parseFloat` restricted to the `[\d.]+` captures fed to it by the
converters: leading digits, an optional dot, then digits (parsing stops
at a second dot); `none` models `NaN` (no digit before the stop).  The
result is a fixed-point value. -/
def parseFloatFP (l : List Char) : Option Int :=
  let intPart := l.takeWhile isDigitCh
  let rest := l.drop intPart.length
  match rest with
  | '.' :: r =>
    let fracPart := r.takeWhile isDigitCh
    if intPart.isEmpty && fracPart.isEmpty then none
    else
      some ((digitsToNat intPart : Int) * fpS +
        ((digitsToNat fracPart : Int) * fpS).fdiv (ipow 10 fracPart.length))
  | _ =>
    if intPart.isEmpty then none
    else some ((digitsToNat intPart : Int) * fpS)

/-- One attempt of `/rgba\(\s*([\d.]+)\s*,\s*([\d.]+)\s*,\s*([\d.]+)\s*,\s*([\d.]+)\s*\)/`
anchored at the head of `l`. -/
def rgbaMatchAt (l : List Char) : Option (List Char × List Char × List Char × List Char) :=
  match l with
  | 'r' :: 'g' :: 'b' :: 'a' :: '(' :: rest =>
    let step := fun (r : List Char) =>
      let r1 := r.dropWhile jsIsSpace
      let cap := r1.takeWhile (fun c => isDigitCh c || c = '.')
      if cap.isEmpty then none
      else some (cap, (r1.drop cap.length).dropWhile jsIsSpace)
    match step rest with
    | none => none
    | some (c1, r1) =>
      match r1 with
      | ',' :: r2 =>
        match step r2 with
        | none => none
        | some (c2, r3) =>
          match r3 with
          | ',' :: r4 =>
            match step r4 with
            | none => none
            | some (c3, r5) =>
              match r5 with
              | ',' :: r6 =>
                match step r6 with
                | none => none
                | some (c4, r7) =>
                  match r7 with
                  | ')' :: _ => some (c1, c2, c3, c4)
                  | _ => none
              | _ => none
          | _ => none
      | _ => none
  | _ => none

/-- Unanchored regex search: first position where the anchored attempt
succeeds. -/
def searchL {α : Type} (f : List Char → Option α) : List Char → Option α
  | [] => f []
  | c :: rest =>
    match f (c :: rest) with
    | some v => some v
    | none => searchL f rest

/-- `rgbaStringToOklchString` from color-conversions.ts (`none` models
the `null` return).  Components that would parse to `NaN` (an all-dots
capture) are outside the model and also return `none`. -/
def rgbaStringToOklchString (rgbaString : String) : Option String :=
  match searchL rgbaMatchAt rgbaString.data with
  | none => none
  | some (c1, c2, c3, c4) =>
    match parseFloatFP c1, parseFloatFP c2, parseFloatFP c3, parseFloatFP c4 with
    | some r, some g, some b, some a =>
      let lch := oklchTextOf (rgbToOklchRounded r g b)
      let aRounded := round3 a
      some (lch ++ (if aRounded ≠ 1000 then " / " ++ fmtThousandths aRounded else ""))
    | _, _, _, _ => none

end Radix

namespace Radix

/-- One attempt of
`/hsla\(([\d.]+),\s*([\d.]+)%,\s*([\d.]+)%,\s*([\d.]+)\)/` anchored at
the head of `l` (note: no whitespace is allowed after `(` or before the
commas/`)` in this pattern). -/
def hslaMatchAt (l : List Char) : Option (List Char × List Char × List Char × List Char) :=
  match l with
  | 'h' :: 's' :: 'l' :: 'a' :: '(' :: rest =>
    let c1 := rest.takeWhile (fun c => isDigitCh c || c = '.')
    if c1.isEmpty then none
    else
      match rest.drop c1.length with
      | ',' :: r1 =>
        let r1' := r1.dropWhile jsIsSpace
        let c2 := r1'.takeWhile (fun c => isDigitCh c || c = '.')
        if c2.isEmpty then none
        else
          match r1'.drop c2.length with
          | '%' :: ',' :: r2 =>
            let r2' := r2.dropWhile jsIsSpace
            let c3 := r2'.takeWhile (fun c => isDigitCh c || c = '.')
            if c3.isEmpty then none
            else
              match r2'.drop c3.length with
              | '%' :: ',' :: r3 =>
                let r3' := r3.dropWhile jsIsSpace
                let c4 := r3'.takeWhile (fun c => isDigitCh c || c = '.')
                if c4.isEmpty then none
                else
                  match r3'.drop c4.length with
                  | ')' :: _ => some (c1, c2, c3, c4)
                  | _ => none
              | _ => none
          | _ => none
      | _ => none
  | _ => none

/-- The `hueToRgb` helper inside `hslaStringToOklchString`. -/
def hueToRgb (p q t : Int) : Int :=
  let t1 := if t < 0 then t + fpS else t
  let t2 := if fpS < t1 then t1 - fpS else t1
  if t2 < fpDiv fpS (fpOfInt 6) then p + fpMul (fpMul (q - p) (fpOfInt 6)) t2
  else if t2 < fpDiv fpS (fpOfInt 2) then q
  else if t2 < fpDiv (fpOfInt 2) (fpOfInt 3) then
    p + fpMul (fpMul (q - p) (fpDiv (fpOfInt 2) (fpOfInt 3) - t2)) (fpOfInt 6)
  else p

/-- `hslaStringToOklchString` from color-conversions.ts; `Except` models
the thrown format error.  Components that would parse to `NaN` are
outside the model and map to the same error. -/
def hslaStringToOklchString (hslaString : String) : Except String String :=
  match searchL hslaMatchAt hslaString.data with
  | none => .error ("Invalid HSLA string format: " ++ hslaString)
  | some (hc, sc, lc, ac) =>
    match parseFloatFP hc, parseFloatFP sc, parseFloatFP lc, parseFloatFP ac with
    | some h, some s, some l, some a =>
      let saturation := fpDiv s (fpOfInt 100)
      let lightness := fpDiv l (fpOfInt 100)
      let rgb :=
        if saturation = 0 then (lightness, lightness, lightness)
        else
          let q :=
            if lightness < fpDec 5 1 then fpMul lightness (fpS + saturation)
            else lightness + saturation - fpMul lightness saturation
          let p := 2 * lightness - q
          let hNorm := fpDiv h (fpOfInt 360)
          (hueToRgb p q (hNorm + fpDiv fpS (fpOfInt 3)), hueToRgb p q hNorm,
            hueToRgb p q (hNorm - fpDiv fpS (fpOfInt 3)))
      let r255 := jsRound (rgb.1 * 255)
      let g255 := jsRound (rgb.2.1 * 255)
      let b255 := jsRound (rgb.2.2 * 255)
      let lch := oklchTextOf (rgbToOklchRounded (fpOfInt r255) (fpOfInt g255) (fpOfInt b255))
      let aRounded := round3 a
      .ok (lch ++ (if aRounded ≠ 1000 then " / " ++ fmtThousandths aRounded else ""))
    | _, _, _, _ => .error ("Invalid HSLA string format: " ++ hslaString)

end Radix

namespace Radix

/-! ## Combined emitter (`parseAndGenerateCombinedCss`, construction
phase, intermediate-variable pipeline) -/

/-- Header comment block (package version 2.1.0). -/
def headerComment : String :=
  "/**\n Radix Colors for Tailwind CSS\n \n Version: 2.1.0\n Created by Lingxi Li on 4/13/25.\n\n To know more about this file, visit: https://github.com/lilingxi01/radix-colors-tailwind\n */"

/-- sRGB (fallback) and P3 definitions for one mode. -/
structure ColorDefinition where
  srgb : Option String
  p3 : Option String
deriving Repr, DecidableEq

/-- Parsed light/dark values for a single Radix variable. -/
structure ParsedColorValue where
  light : ColorDefinition
  dark : ColorDefinition
deriving Repr, DecidableEq

def emptyColorDefinition : ColorDefinition := ⟨none, none⟩

def emptyParsedColorValue : ParsedColorValue := ⟨emptyColorDefinition, emptyColorDefinition⟩

/-- `(\d+|a\d+)` anchored to the end: all digits, or `a` followed by
digits. -/
def idxCheck (idx : List Char) : Bool :=
  (!idx.isEmpty && idx.all isDigitCh) ||
    (idx.headD ' ' = 'a' && !(idx.drop 1).isEmpty && (idx.drop 1).all isDigitCh)

/-- `/^--\w+-(\d+|a\d+)$/`: the index capture of an output-eligible
variable name (`\w+` cannot cross the `-`, so the match is
deterministic). -/
def emitVarMatch (v : String) : Option String :=
  match v.data with
  | '-' :: '-' :: rest =>
    let w := rest.takeWhile isWordCh
    if w.isEmpty then none
    else
      match rest.drop w.length with
      | '-' :: idx => if idxCheck idx then some (String.mk idx) else none
      | _ => none
  | _ => none

/-- `baseName === "black-alpha" || baseName === "white-alpha" ?
baseName.replace("-alpha", "") : baseName`. -/
def outputStemName (baseName : String) : String :=
  if baseName = "black-alpha" then "black"
  else if baseName = "white-alpha" then "white"
  else baseName

/-- Outcome of the per-value conversion attempt inside the emitter's
try/catch: a produced line value, a caught exception (logged), or no
branch taken / a `null` conversion result (silently skipped). -/
inductive ConvOutcome where
  | success (value : String)
  | thrown (msg : String)
  | skipped
deriving Repr, DecidableEq

/-- `Math.round((alpha / 255) * 1000)` on an integer alpha byte value,
as an exact integer (`⌊(2000·a + 255) / 510⌋`, which is
round-half-up). -/
def roundAlphaByte (a : Int) : Int := (2000 * a + 255).fdiv 510

/-- The conversion block the emitter runs for a fallback literal
(duplicated verbatim in the source for the light and dark branches):
dispatch on the literal's prefix, convert, and for an 8-digit hex
decode and append the alpha byte separately. -/
def convertFallback (value : String) : ConvOutcome :=
  if strStartsWith value "#" then
    match hexToOklchString value with
    | .error e => .thrown e
    | .ok oklch =>
      let alphaValue : Option String :=
        if value.data.length = 9 then
          match jsParseIntHexL (value.data.drop 7) with
          | some alpha => some (fmtThousandths (roundAlphaByte alpha))
          | none => none
        else none
      match alphaValue with
      | some av => .success (oklch ++ " / " ++ av)
      | none => .success oklch
  else if strStartsWith value "hsla" then
    match hslaStringToOklchString value with
    | .error e => .thrown e
    | .ok s => .success s
  else if strStartsWith value "rgba" then
    match rgbaStringToOklchString value with
    | none => .skipped
    | some s => .success s
  else .skipped

/-- Accumulated output line lists of the construction loop, plus the
`console.error` log. -/
structure EmitState where
  light : List String
  dark : List String
  theme : List String
  inter : List String
  p3L : List String
  p3D : List String
  p3I : List String
  logs : List String
deriving Repr

def emptyEmitState : EmitState := ⟨[], [], [], [], [], [], [], []⟩

/-- `--radix-rgb-<stem>-<index>`. -/
def rgbVarName (bn idx : String) : String :=
  "--radix-rgb-" ++ outputStemName bn ++ "-" ++ idx

/-- `--radix-intermediate-<stem>-<index>`. -/
def interVarName (bn idx : String) : String :=
  "--radix-intermediate-" ++ outputStemName bn ++ "-" ++ idx

/-- `--color-<stem>-<index>`. -/
def themeVarName (bn idx : String) : String :=
  "--color-" ++ outputStemName bn ++ "-" ++ idx

/-- A two-space-indented custom-property declaration line
`  <name>:<rest>`. -/
def mkDeclLine (name rest : String) : String :=
  "  " ++ name ++ ":" ++ rest

/-- A base-variable definition line `  <rgbVar>: <value>;` (used for the
converted fallback values and for the raw P3 override values alike). -/
def defLineOf (bn idx value : String) : String :=
  mkDeclLine (rgbVarName bn idx) (" " ++ value ++ ";")

/-- The intermediate-variable definition line. -/
def interLineOf (bn idx : String) : String :=
  mkDeclLine (interVarName bn idx) (" oklch(var(" ++ rgbVarName bn idx ++ "));")

/-- The gamut-override intermediate line (direct variable reference). -/
def p3InterLineOf (bn idx : String) : String :=
  mkDeclLine (interVarName bn idx) (" var(" ++ rgbVarName bn idx ++ ");")

/-- The theme-alias line. -/
def themeLineOf (bn idx : String) : String :=
  mkDeclLine (themeVarName bn idx) (" var(" ++ interVarName bn idx ++ ");")

/-- The `.some(line => line.startsWith(prefix))` duplicate guard on an
intermediate line list. -/
def interGuardHit (ivar : String) (lines : List String) : Bool :=
  lines.any (fun l => strStartsWith l ("  " ++ ivar ++ ":"))

/-- The converted-fallback part of the light branch: convert, then push
the base line and (once per variable) the intermediate line, or log a
caught conversion error. -/
def procLightSrgb (bn idx vname lv : String) (st : EmitState) : EmitState :=
  match convertFallback lv with
  | .success fv =>
    if interGuardHit (interVarName bn idx) st.inter then
      { st with light := st.light ++ [defLineOf bn idx fv] }
    else
      { st with light := st.light ++ [defLineOf bn idx fv],
                inter := st.inter ++ [interLineOf bn idx] }
  | .thrown msg =>
    { st with
      logs := st.logs ++ ["Error converting light value for " ++ vname ++ ": " ++ lv ++ " | " ++ msg] }
  | .skipped => st

/-- The P3-override part of the light branch: raw pass-through plus the
guarded intermediate override. -/
def procLightP3 (bn idx pv : String) (st : EmitState) : EmitState :=
  if interGuardHit (interVarName bn idx) st.p3I then
    { st with p3L := st.p3L ++ [defLineOf bn idx pv] }
  else
    { st with p3L := st.p3L ++ [defLineOf bn idx pv],
              p3I := st.p3I ++ [p3InterLineOf bn idx] }

/-- The light branch: runs only when a (truthy) light fallback literal
is present; note the P3 override is nested inside it, so a light gamut
literal without a light fallback literal is never emitted. -/
def procLight (bn idx vname : String) (cd : ColorDefinition) (st : EmitState) : EmitState :=
  match cd.srgb with
  | some lv =>
    if lv.isEmpty then st
    else
      match cd.p3 with
      | some pv =>
        if pv.isEmpty then procLightSrgb bn idx vname lv st
        else procLightP3 bn idx pv (procLightSrgb bn idx vname lv st)
      | none => procLightSrgb bn idx vname lv st
  | none => st

/-- Dark-branch counterpart of `procLightSrgb`. -/
def procDarkSrgb (bn idx vname dv : String) (st : EmitState) : EmitState :=
  match convertFallback dv with
  | .success fv =>
    if interGuardHit (interVarName bn idx) st.inter then
      { st with dark := st.dark ++ [defLineOf bn idx fv] }
    else
      { st with dark := st.dark ++ [defLineOf bn idx fv],
                inter := st.inter ++ [interLineOf bn idx] }
  | .thrown msg =>
    { st with
      logs := st.logs ++ ["Error converting dark value for " ++ vname ++ ": " ++ dv ++ " | " ++ msg] }
  | .skipped => st

/-- Dark-branch counterpart of `procLightP3`. -/
def procDarkP3 (bn idx pv : String) (st : EmitState) : EmitState :=
  if interGuardHit (interVarName bn idx) st.p3I then
    { st with p3D := st.p3D ++ [defLineOf bn idx pv] }
  else
    { st with p3D := st.p3D ++ [defLineOf bn idx pv],
              p3I := st.p3I ++ [p3InterLineOf bn idx] }

/-- The dark branch (same nesting as the light branch). -/
def procDark (bn idx vname : String) (cd : ColorDefinition) (st : EmitState) : EmitState :=
  match cd.srgb with
  | some dv =>
    if dv.isEmpty then st
    else
      match cd.p3 with
      | some pv =>
        if pv.isEmpty then procDarkSrgb bn idx vname dv st
        else procDarkP3 bn idx pv (procDarkSrgb bn idx vname dv st)
      | none => procDarkSrgb bn idx vname dv st
  | none => st

/-- One iteration of the construction loop over a sorted variable name
(intermediate-variable pipeline): always push the theme-alias line, then
run the light and dark branches. -/
def processVar (bn : String) (st : EmitState) (e : String × ParsedColorValue) : EmitState :=
  match emitVarMatch e.1 with
  | none => st
  | some outputIndex =>
    let st1 := { st with theme := st.theme ++ [themeLineOf bn outputIndex] }
    procDark bn outputIndex e.1 e.2.dark (procLight bn outputIndex e.1 e.2.light st1)

/-- `line.match(/^\s*(--\S+):/)?.[1] ?? ""`: the custom-property name a
generated line defines. -/
def extractVarHead (line : String) : String :=
  match line.data.dropWhile jsIsSpace with
  | '-' :: '-' :: rest =>
    let run := rest.takeWhile (fun c => !jsIsSpace c)
    let ridx := run.reverse.findIdx (fun c => c = ':')
    if ridx = run.length then ""
    else
      let i := run.length - 1 - ridx
      if i < 1 then "" else String.mk ('-' :: '-' :: run.take i)
  | _ => ""

/-- The in-place `.sort` applied to the intermediate and
intermediate-override line lists. -/
def sortLinesByVarHead (lines : List String) : List String :=
  jsSortStable (fun a b => sortVarNames (extractVarHead a) (extractVarHead b)) lines

def isAchromaticBase (baseName : String) : Bool :=
  baseName = "black-alpha" || baseName = "white-alpha"

/-- The light (base-value) block, or `""` when it has no lines. -/
def lightBlockOf (baseName : String) (st : EmitState) : String :=
  if st.light.length > 0 then
    let lightSelectors :=
      if isAchromaticBase baseName then ":root" else ":root,\n.light,\n.light-theme"
    lightSelectors ++ " \x7b\n" ++ joinSep "\n" st.light ++ "\n\x7d\n"
  else ""

/-- The global intermediate block (sorted), or `""`. -/
def interBlockOf (st : EmitState) : String :=
  if st.inter.length > 0 then
    "\n:root \x7b\n" ++ joinSep "\n" (sortLinesByVarHead st.inter) ++ "\n\x7d\n"
  else ""

/-- The class-based dark block, or `""`. -/
def darkBlockOf (st : EmitState) : String :=
  if st.dark.length > 0 then
    "\n.dark,\n.dark-theme \x7b\n" ++ joinSep "\n" st.dark ++ "\n\x7d\n"
  else ""

/-- The Tailwind theme-alias block, or `""`. -/
def themeBlockOf (st : EmitState) : String :=
  if st.theme.length > 0 then
    "\n@theme inline \x7b\n" ++ joinSep "\n" st.theme ++ "\n\x7d\n"
  else ""

/-- The feature-conditional gamut wrapper, appended iff at least one of
the three override lists is nonempty; inside it the intermediate
overrides are re-sorted and every line is re-indented from its trimmed
text. -/
def p3SectionOf (baseName : String) (st : EmitState) : String :=
  if st.p3I.length > 0 || st.p3L.length > 0 || st.p3D.length > 0 then
    let s0 := "\n@supports (color: color(display-p3 1 1 1)) \x7b\n" ++
      "  @media (color-gamut: p3) \x7b\n"
    let s1 :=
      if st.p3I.length > 0 then
        s0 ++ "    :root \x7b\n" ++
          joinSep "\n" ((sortLinesByVarHead st.p3I).map (fun l => "      " ++ jsTrim l)) ++
          "\n    \x7d\n"
      else s0
    let s2 :=
      if st.p3L.length > 0 then
        let sel :=
          if isAchromaticBase baseName then ":root" else ":root,\n    .light,\n    .light-theme"
        s1 ++ "    " ++ sel ++ " \x7b\n" ++
          joinSep "\n" (st.p3L.map (fun l => "      " ++ jsTrim l)) ++ "\n    \x7d\n"
      else s1
    let s3 :=
      if st.p3D.length > 0 then
        s2 ++ "    .dark,\n    .dark-theme \x7b\n" ++
          joinSep "\n" (st.p3D.map (fun l => "      " ++ jsTrim l)) ++ "\n    \x7d\n"
      else s2
    s3 ++ "  \x7d\n" ++ "\x7d\n"
  else ""

/-- Final document assembly of `parseAndGenerateCombinedCss`: the
header and then each block appended when nonempty, trimmed, with a
final newline. -/
def assembleCss (baseName : String) (st : EmitState) : String :=
  jsTrim (headerComment ++ "\n\n" ++ lightBlockOf baseName st ++ interBlockOf st ++
    darkBlockOf st ++ themeBlockOf st ++ p3SectionOf baseName st) ++ "\n"

/-- `obj[v]` on the association-list model of a JS object. -/
def combinedLookup {α : Type} (tbl : List (String × α)) (v : String) : Option α :=
  (tbl.find? (fun e => e.1 = v)).map Prod.snd

/-- One step of the construction loop: look the sorted name up and
process it. -/
def emitStep (bn : String) (tbl : List (String × ParsedColorValue)) (st : EmitState)
    (v : String) : EmitState :=
  match combinedLookup tbl v with
  | some pv => processVar bn st (v, pv)
  | none => st

/-- The construction loop: sort `Object.keys` and process each. -/
def emitLoop (bn : String) (tbl : List (String × ParsedColorValue)) : EmitState :=
  (jsSortStable sortVarNames (tbl.map Prod.fst)).foldl (emitStep bn tbl) emptyEmitState

/-- The construction phase of `parseAndGenerateCombinedCss`: from the
merged per-family table to the emitted file text. -/
def constructCss (bn : String) (tbl : List (String × ParsedColorValue)) : String :=
  assembleCss bn (emitLoop bn tbl)

end Radix

namespace Radix

/-! ## Source scope parser (`parseAndGenerateCombinedCss`, parse phase) -/

inductive Scope where
  | unknown
  | light
  | dark
deriving Repr, DecidableEq

/-- Greedy `(?:-\w+)*` segment loop of the variable-name pattern; fuel
bounds the recursion (one unit per consumed character suffices). -/
def varNameSegs : Nat → List Char → (List Char × List Char)
  | 0, l => ([], l)
  | fuel + 1, l =>
    match l with
    | '-' :: rest =>
      let w := rest.takeWhile isWordCh
      if w.isEmpty then ([], l)
      else
        let pr := varNameSegs fuel (rest.drop w.length)
        ('-' :: (w ++ pr.1), pr.2)
    | _ => ([], l)

/-- `/^(--\w+(?:-\w+)*):\s*(.*);$/` applied to a trimmed line: the
custom-property name and the raw value (text between the colon, with
leading whitespace stripped by the greedy `\s*`, and the final `;`). -/
def parseVarDecl (t : String) : Option (String × String) :=
  match t.data with
  | '-' :: '-' :: rest =>
    let w := rest.takeWhile isWordCh
    if w.isEmpty then none
    else
      let pr := varNameSegs rest.length (rest.drop w.length)
      match pr.2 with
      | ':' :: afterColon =>
        let v := afterColon.dropWhile jsIsSpace
        match v.reverse with
        | ';' :: revInit => some (String.mk ('-' :: '-' :: (w ++ pr.1)), String.mk revInit.reverse)
        | _ => none
      | _ => none
  | _ => none

/-- Light-scope opener patterns (`:root,` / `.light,` / `:root \x7b`). -/
def isLightStartLine (t : String) : Bool :=
  strStartsWith t ":root," || strStartsWith t ".light," || strStartsWith t ":root \x7b"

/-- Dark-scope opener pattern (`.dark,`). -/
def isDarkStartLine (t : String) : Bool :=
  strStartsWith t ".dark,"

/-- Dark-preference media query opener (scripts variant only). -/
def isMediaDarkLine (t : String) : Bool :=
  strStartsWith t "@media" && strIncludes t "prefers-color-scheme: dark"

/-- The single-line selector+brace edge case that clamps the depth to at
least 1. -/
def isEdgeBraceLine (t : String) : Bool :=
  (strStartsWith t ":root \x7b" || strStartsWith t ".light \x7b" ||
    strStartsWith t ".dark \x7b") && strIncludes t "\x7b"

/-- Net brace count of a line: occurrences of the block-open marker
minus occurrences of the block-close marker. -/
def braceDelta (t : String) : Int :=
  countChar '\x7b' t - countChar '\x7d' t

/-- `expectedStemName` (`baseName.split("-")[0]` for the two achromatic
groups). -/
def expectedStemName (baseName : String) : String :=
  if baseName = "black-alpha" || baseName = "white-alpha" then
    (jsSplit '-' baseName).headD ""
  else baseName

/-- The stem filter with its (vacuous) black/white alpha carve-out. -/
def stemFilterPass (expectedStem : String) (variableName : String) : Bool :=
  if !(strStartsWith variableName ("--" ++ expectedStem ++ "-")) then
    (expectedStem = "black" || expectedStem = "white") &&
      strStartsWith variableName ("--" ++ expectedStem ++ "-a")
  else true

/-- Append-if-absent: `if (!tbl[k]) tbl[k] = init` on the insertion-
ordered object model. -/
def ensureKey {α : Type} (tbl : List (String × α)) (k : String) (init : α) :
    List (String × α) :=
  if (tbl.find? (fun e => e.1 = k)).isSome then tbl else tbl ++ [(k, init)]

/-- In-place update of the record stored at `k`. -/
def updateKey {α : Type} (tbl : List (String × α)) (k : String) (f : α → α) :
    List (String × α) :=
  tbl.map (fun e => if e.1 = k then (e.1, f e.2) else e)

/-- Slot assignment of the four-slot (intermediate/P3) variant: classify
the literal by its `color(display-p3` prefix and fill the matching slot
only when it is still empty. -/
def assignSlotP3 (scope : Scope) (value : String) (pv : ParsedColorValue) : ParsedColorValue :=
  match scope with
  | .light =>
    if strStartsWith value "color(display-p3" then
      if pv.light.p3 = none then { pv with light := { pv.light with p3 := some value } } else pv
    else
      if pv.light.srgb = none then { pv with light := { pv.light with srgb := some value } } else pv
  | .dark =>
    if strStartsWith value "color(display-p3" then
      if pv.dark.p3 = none then { pv with dark := { pv.dark with p3 := some value } } else pv
    else
      if pv.dark.srgb = none then { pv with dark := { pv.dark with srgb := some value } } else pv
  | .unknown => pv

structure ScanStP3 where
  scope : Scope
  level : Int
  tbl : List (String × ParsedColorValue)
deriving Repr

/-- Scope detection of the intermediate/P3 variant (no media-query
branch): `(new scope, new depth)`; a scope-opening line that carries a
`\x7b` resets the depth to 1. -/
def detectScopeP3 (t : String) (sc : Scope) (lv : Int) : Scope × Int :=
  if isLightStartLine t then
    (Scope.light, if strIncludes t "\x7b" then (1 : Int) else lv)
  else if isDarkStartLine t then
    (Scope.dark, if strIncludes t "\x7b" then (1 : Int) else lv)
  else (sc, lv)

/-- The nesting-tracking step: in a known scope, add the line's net
brace count and clamp single-line `:root \x7b`-style headers to at
least 1. -/
def trackLevel (t : String) (sc : Scope) (lv : Int) : Int :=
  if sc = Scope.light || sc = Scope.dark then
    let l' := lv + braceDelta t
    if isEdgeBraceLine t then max 1 l' else l'
  else lv

/-- One line of the four-slot scanner (no media-query dark detection in
this variant). -/
def scanLineP3 (expectedStem : String) (st : ScanStP3) (line : String) : ScanStP3 :=
  let t := jsTrim line
  let sl := detectScopeP3 t st.scope st.level
  let known := sl.1 = Scope.light || sl.1 = Scope.dark
  let level2 := trackLevel t sl.1 sl.2
  let tbl2 :=
    if known && level2 > 0 && strStartsWith t "--" then
      match parseVarDecl t with
      | some (variableName, value) =>
        if value.isEmpty then st.tbl
        else if !stemFilterPass expectedStem variableName then st.tbl
        else
          updateKey (ensureKey st.tbl variableName emptyParsedColorValue) variableName
            (assignSlotP3 sl.1 value)
      | none => st.tbl
    else st.tbl
  if known && level2 ≤ 0 then ⟨Scope.unknown, 0, tbl2⟩
  else ⟨sl.1, level2, tbl2⟩

/-- Scan one source file's text (four-slot variant); empty text is
skipped (`if (!text) continue`), and the scope state is per-file. -/
def scanFileP3 (expectedStem : String) (tbl : List (String × ParsedColorValue))
    (text : String) : List (String × ParsedColorValue) :=
  if text.isEmpty then tbl
  else ((jsSplit '\n' text).foldl (scanLineP3 expectedStem) ⟨Scope.unknown, 0, tbl⟩).tbl

/-- Scan all of a family group's source files; a `none` entry is a file
whose read failed with ENOENT, which is silently skipped. -/
def scanFilesP3 (baseName : String) (sourceFiles : List (Option String)) :
    List (String × ParsedColorValue) :=
  sourceFiles.foldl
    (fun tbl f =>
      match f with
      | none => tbl
      | some text => scanFileP3 (expectedStemName baseName) tbl text)
    []

/-- Full `parseAndGenerateCombinedCss` (intermediate/P3 variant): parse
all source files then construct the combined file text. -/
def parseAndGenerateCombinedCss (baseName : String) (sourceFiles : List (Option String)) :
    String :=
  constructCss baseName (scanFilesP3 baseName sourceFiles)

/-! ### scripts/generator.ts scanner (two slots, plus media-query dark
detection) -/

structure ParsedColorValue2 where
  lightValue : Option String
  darkValue : Option String
deriving Repr, DecidableEq

def emptyParsedColorValue2 : ParsedColorValue2 := ⟨none, none⟩

def assignSlot2 (scope : Scope) (value : String) (pv : ParsedColorValue2) : ParsedColorValue2 :=
  match scope with
  | .light => if pv.lightValue = none then { pv with lightValue := some value } else pv
  | .dark => if pv.darkValue = none then { pv with darkValue := some value } else pv
  | .unknown => pv

structure ScanStS where
  scope : Scope
  level : Int
  tbl : List (String × ParsedColorValue2)
deriving Repr

/-- Scope detection of the scripts variant: additionally recognises a
`@media (prefers-color-scheme: dark)` opener, which does not itself
touch the depth counter. -/
def detectScopeScripts (t : String) (sc : Scope) (lv : Int) : Scope × Int :=
  if isLightStartLine t then
    (Scope.light, if strIncludes t "\x7b" then (1 : Int) else lv)
  else if isDarkStartLine t then
    (Scope.dark, if strIncludes t "\x7b" then (1 : Int) else lv)
  else if isMediaDarkLine t then (Scope.dark, lv)
  else (sc, lv)

/-- One line of the scripts-variant scanner: like `scanLineP3` but with
the media-query opener and two value slots. -/
def scanLineScripts (expectedStem : String) (st : ScanStS) (line : String) : ScanStS :=
  let t := jsTrim line
  let sl := detectScopeScripts t st.scope st.level
  let known := sl.1 = Scope.light || sl.1 = Scope.dark
  let level2 := trackLevel t sl.1 sl.2
  let tbl2 :=
    if known && level2 > 0 && strStartsWith t "--" then
      match parseVarDecl t with
      | some (variableName, value) =>
        if value.isEmpty then st.tbl
        else if !stemFilterPass expectedStem variableName then st.tbl
        else
          updateKey (ensureKey st.tbl variableName emptyParsedColorValue2) variableName
            (assignSlot2 sl.1 value)
      | none => st.tbl
    else st.tbl
  if known && level2 ≤ 0 then ⟨Scope.unknown, 0, tbl2⟩
  else ⟨sl.1, level2, tbl2⟩

def scanFileScripts (expectedStem : String) (tbl : List (String × ParsedColorValue2))
    (text : String) : List (String × ParsedColorValue2) :=
  if text.isEmpty then tbl
  else ((jsSplit '\n' text).foldl (scanLineScripts expectedStem) ⟨Scope.unknown, 0, tbl⟩).tbl

def scanFilesScripts (baseName : String) (sourceFiles : List (Option String)) :
    List (String × ParsedColorValue2) :=
  sourceFiles.foldl
    (fun tbl f =>
      match f with
      | none => tbl
      | some text => scanFileScripts (expectedStemName baseName) tbl text)
    []

end Radix

namespace Radix

/-! ## Orchestrator (`main` of scripts/generator.ts, identical in the
intermediate-variant file) and the legacy generator/index.ts -/

/-- `(?:-(?:dark|alpha))*.css$` with the regex's unescaped dot (any
character) and greedy backtracking; fuel bounds the group recursion. -/
def nameGroupsMatch : Nat → List Char → Bool
  | 0, _ => false
  | fuel + 1, l =>
    (if ['-', 'd', 'a', 'r', 'k'].isPrefixOf l then nameGroupsMatch fuel (l.drop 5) else false) ||
    (if ['-', 'a', 'l', 'p', 'h', 'a'].isPrefixOf l then nameGroupsMatch fuel (l.drop 6)
      else false) ||
    (l.length = 4 && l.drop 1 = ['c', 's', 's'])

/-- `/^([a-z]+)(?:-(?:dark|alpha))*.css$/`: the base-name capture; the
greedy `[a-z]+` means the longest stem for which the remainder matches
wins. -/
def stemTryAux (l : List Char) : Nat → Option String
  | 0 => none
  | n + 1 =>
    if nameGroupsMatch (l.length + 1) (l.drop (n + 1)) then some (String.mk (l.take (n + 1)))
    else stemTryAux l n

def nameRegexBaseName (file : String) : Option String :=
  stemTryAux file.data (file.data.takeWhile isLowerCh).length

/-- `/^(black|white)-alpha.css$/` (again with an unescaped dot). -/
def alphaNameBaseName (file : String) : Option String :=
  let l := file.data
  if "black-alpha".data.isPrefixOf l && (l.drop 11).length = 4 && l.drop 12 = ['c', 's', 's'] then
    some "black"
  else if "white-alpha".data.isPrefixOf l && (l.drop 11).length = 4 &&
      l.drop 12 = ['c', 's', 's'] then
    some "white"
  else none

/-- The per-file classification of `main`'s grouping loop. -/
def classifyBaseName (file : String) : Option String :=
  match alphaNameBaseName file with
  | some a => some (a ++ "-alpha")
  | none => nameRegexBaseName file

/-- Append a file to its (insertion-ordered) group. -/
def addToGroup (groups : List (String × List String)) (bn : String) (file : String) :
    List (String × List String) :=
  if (groups.find? (fun g => g.1 = bn)).isSome then
    groups.map (fun g => if g.1 = bn then (g.1, g.2 ++ [file]) else g)
  else groups ++ [(bn, [file])]

/-- The grouping of discovered `.css` files by base colour name. -/
def buildFileGroups (cssFiles : List String) : List (String × List String) :=
  cssFiles.foldl
    (fun gs f =>
      match classifyBaseName f with
      | some bn => addToGroup gs bn f
      | none => gs)
    []

/-- `main` of the combined-generator script, as a pure function from the
source directory listing (plus a content lookup, `none` = unreadable /
ENOENT) to the list of written output files `(name, content)`.  Note it
performs no emptiness check on the discovered files: with zero usable
sources it still writes the aggregate manifest.  The manifest lists the
previously written per-family files in JS default (code-unit) sort
order. -/
def scriptsMain (listing : List String) (readFile : String → Option String) :
    List (String × String) :=
  let cssFiles := listing.filter (fun f => strEndsWith f ".css")
  let groups := buildFileGroups cssFiles
  let familyWrites :=
    groups.map (fun g => (g.1 ++ ".css", parseAndGenerateCombinedCss g.1 (g.2.map readFile)))
  let generated := jsSortStable (fun a b => jsLocaleCompare a b) (familyWrites.map Prod.fst)
  let manifest :=
    jsTrim (headerComment ++ "\n\n" ++
      String.join (generated.map (fun f => "@import \"radix-colors-tailwind/dist/" ++ f ++ "\";\n"))) ++
      "\n"
  familyWrites ++ [("radix-colors.css", manifest)]

/-! ### Legacy generator (src/generator/index.ts) -/

def intToStr (n : Int) : String :=
  if n < 0 then "-" ++ natToStr n.natAbs else natToStr n.toNat

/-- A JS number printed by string coercion; `none` models `NaN`. -/
def jsNumToString (o : Option Int) : String :=
  match o with
  | none => "NaN"
  | some n => intToStr n

/-- `hexToRgb` of the legacy generator: hex pairs to decimal component
text joined by spaces, with a rounded `/ alpha` suffix only when the
fourth pair parses to a truthy (nonzero, non-NaN) value. -/
def hexToRgbLegacy (hexCode : String) : Except String String :=
  if !(strStartsWith hexCode "#") ||
      (hexCode.data.length ≠ 7 && hexCode.data.length ≠ 9) then
    .error "Invalid hex code format"
  else
    match chunk2 (hexCode.data.drop 1) with
    | [] => .error "Invalid hex code format"
    | p0 :: rest =>
      let r := jsNumToString (jsParseIntHexL p0)
      let g := jsNumToString ((rest.head?).bind jsParseIntHexL)
      let b := jsNumToString ((rest.drop 1).head?.bind jsParseIntHexL)
      match (rest.drop 2).head? with
      | some p3pair =>
        match jsParseIntHexL p3pair with
        | some a =>
          if a ≠ 0 then
            .ok (r ++ " " ++ g ++ " " ++ b ++ " / " ++ fmtThousandths (roundAlphaByte a))
          else .ok (r ++ " " ++ g ++ " " ++ b)
        | none => .ok (r ++ " " ++ g ++ " " ++ b)
      | none => .ok (r ++ " " ++ g ++ " " ++ b)

/-- `/^--(\w+)-(\w+):\s*(#\w+);$/` of the legacy generator. -/
def legacyHexMatch (body : List Char) : Option (String × String × String) :=
  match body with
  | '-' :: '-' :: rest =>
    let w1 := rest.takeWhile isWordCh
    if w1.isEmpty then none
    else
      match rest.drop w1.length with
      | '-' :: r2 =>
        let w2 := r2.takeWhile isWordCh
        if w2.isEmpty then none
        else
          match r2.drop w2.length with
          | ':' :: r3 =>
            match r3.dropWhile jsIsSpace with
            | '#' :: r4 =>
              let w3 := r4.takeWhile isWordCh
              if w3.isEmpty then none
              else
                match r4.drop w3.length with
                | [';'] => some (String.mk w1, String.mk w2, String.mk ('#' :: w3))
                | _ => none
            | _ => none
          | _ => none
      | _ => none
  | _ => none

/-- `(\d+\.?\d*)`: a number capture of the legacy P3 regex, returned as
raw text. -/
def p3NumCapture (l : List Char) : Option (List Char × List Char) :=
  let ds := l.takeWhile isDigitCh
  if ds.isEmpty then none
  else
    match l.drop ds.length with
    | '.' :: r =>
      let fs := r.takeWhile isDigitCh
      some (ds ++ '.' :: fs, r.drop fs.length)
    | r => some (ds, r)

/-- `/^--(\w+)-(\w+):\s*color\(display-p3 (\d+\.?\d*) (\d+\.?\d*) (\d+\.?\d*)(?: \/ (\d+\.?\d*))?\);$/`. -/
def legacyP3Match (body : List Char) :
    Option (String × String × String × String × String × Option String) :=
  match body with
  | '-' :: '-' :: rest =>
    let w1 := rest.takeWhile isWordCh
    if w1.isEmpty then none
    else
      match rest.drop w1.length with
      | '-' :: r2 =>
        let w2 := r2.takeWhile isWordCh
        if w2.isEmpty then none
        else
          match r2.drop w2.length with
          | ':' :: r3 =>
            let r4 := r3.dropWhile jsIsSpace
            if !("color(display-p3 ".data.isPrefixOf r4) then none
            else
              match p3NumCapture (r4.drop 17) with
              | none => none
              | some (c1, r5) =>
                match r5 with
                | ' ' :: r6 =>
                  match p3NumCapture r6 with
                  | none => none
                  | some (c2, r7) =>
                    match r7 with
                    | ' ' :: r8 =>
                      match p3NumCapture r8 with
                      | none => none
                      | some (c3, r9) =>
                        match r9 with
                        | ')' :: [';'] =>
                          some (String.mk w1, String.mk w2, String.mk c1, String.mk c2,
                            String.mk c3, none)
                        | ' ' :: '/' :: ' ' :: r10 =>
                          match p3NumCapture r10 with
                          | none => none
                          | some (c4, r11) =>
                            match r11 with
                            | ')' :: [';'] =>
                              some (String.mk w1, String.mk w2, String.mk c1, String.mk c2,
                                String.mk c3, some (String.mk c4))
                            | _ => none
                        | _ => none
                    | _ => none
                | _ => none
          | _ => none
      | _ => none
  | _ => none

/-- One line of the legacy per-file rewrite loop. -/
def legacyTransformLine (path : String) (line : String) : Except String String :=
  let leading := line.data.takeWhile jsIsSpace
  let body := line.data.drop leading.length
  if body.isEmpty || !(['-', '-'].isPrefixOf body) then .ok line
  else if leading.length ≤ 2 then
    match legacyHexMatch body with
    | none => .ok line
    | some (colorName, colorIndex, colorValue) =>
      if colorName.isEmpty || colorIndex.isEmpty || colorValue.isEmpty then
        .error ("Invalid color values at file: " ++ path)
      else
        match hexToRgbLegacy colorValue with
        | .error e => .error e
        | .ok converted =>
          .ok (String.mk leading ++ "--radix-rgb-" ++ colorName ++ "-" ++ colorIndex ++ ": " ++
            converted ++ ";")
  else
    match legacyP3Match body with
    | none => .ok line
    | some (colorName, colorIndex, r, g, b, a?) =>
      if r.isEmpty || g.isEmpty || b.isEmpty then
        .error ("Invalid color values at file: " ++ path)
      else
        .ok (String.mk leading ++ "--radix-p3-" ++ colorName ++ "-" ++ colorIndex ++ ": " ++
          r ++ " " ++ g ++ " " ++ b ++ (match a? with | some a => " / " ++ a | none => "") ++ ";")

/-- The legacy per-file rewrite: transform every line, short-circuiting
on a thrown error. -/
def legacyTransformFile (path : String) (text : String) : Except String String :=
  match (jsSplit '\n' text).foldl
      (fun (acc : Except String (List String)) line =>
        match acc with
        | .error e => .error e
        | .ok ls =>
          match legacyTransformLine path line with
          | .error e => .error e
          | .ok nl => .ok (ls ++ [nl]))
      (.ok []) with
  | .error e => .error e
  | .ok newLines => .ok (headerComment ++ "\n\n" ++ joinSep "\n" newLines)

/-- `main` of the legacy generator as a pure function.  After filtering
to `.css` files it throws (`.error`) when none remain — before any
output file has been written; files with empty text are logged and
skipped. -/
def legacyMain (listing : List String) (readFile : String → String) :
    Except String (List (String × String)) :=
  let files := listing.filter (fun f => strEndsWith f ".css")
  if files.isEmpty then
    .error "No CSS files found in package `@radix-ui/colors`. It is probably broken after updating the package."
  else
    files.foldl
      (fun acc f =>
        match acc with
        | .error e => .error e
        | .ok ws =>
          let text := readFile f
          if text.isEmpty then .ok ws
          else
            match legacyTransformFile f text with
            | .error e => .error e
            | .ok content => .ok (ws ++ [(f, content)]))
      (.ok [])

end Radix

namespace Radix

/-! ## Basic lemmas about the JS primitives -/

theorem perm_insertCmp (cmp : String → String → Int) (x : String) (l : List String) :
    List.Perm (insertCmp cmp x l) (x :: l) := by
  induction l with
  | nil => simp [insertCmp]
  | cons y t ih =>
    unfold insertCmp
    split
    · exact List.Perm.refl _
    · exact (List.Perm.cons y ih).trans (List.Perm.swap x y t)

theorem perm_jsSortStable (cmp : String → String → Int) (l : List String) :
    List.Perm (jsSortStable cmp l) l := by
  induction l with
  | nil => simp [jsSortStable]
  | cons x t ih =>
    unfold jsSortStable
    exact (perm_insertCmp cmp x (jsSortStable cmp t)).trans (List.Perm.cons x ih)

theorem mem_jsSortStable {cmp : String → String → Int} {x : String} {l : List String} :
    x ∈ jsSortStable cmp l ↔ x ∈ l :=
  (perm_jsSortStable cmp l).mem_iff

theorem countP_jsSortStable (cmp : String → String → Int) (p : String → Bool)
    (l : List String) : (jsSortStable cmp l).countP p = l.countP p :=
  (perm_jsSortStable cmp l).countP_eq p

theorem joinSep_infix {x : String} {l : List String} (sep : String) (h : x ∈ l) :
    x.data <:+: (joinSep sep l).data := by
  induction l with
  | nil => cases h
  | cons y t ih =>
    rcases List.mem_cons.mp h with rfl | h'
    · cases t with
      | nil => exact List.infix_refl _
      | cons z t' =>
        show x.data <:+: (x ++ sep ++ joinSep sep (z :: t')).data
        exact ⟨[], (sep ++ joinSep sep (z :: t')).data, by simp [String.data_append]⟩
    · cases t with
      | nil => cases h'
      | cons z t' =>
        have hx := ih h'
        show x.data <:+: (y ++ sep ++ joinSep sep (z :: t')).data
        have heq : (y ++ sep ++ joinSep sep (z :: t')).data =
            (y ++ sep).data ++ (joinSep sep (z :: t')).data := by
          simp [String.data_append]
        rw [heq]
        exact hx.trans ⟨(y ++ sep).data, [], by simp⟩

theorem strContains_append_right {b x : String} (a : String) (h : strContains b x) :
    strContains (a ++ b) x := by
  unfold strContains at *
  rw [String.data_append]
  exact h.trans ⟨a.data, [], by simp⟩

theorem strContains_append_left {a x : String} (b : String) (h : strContains a x) :
    strContains (a ++ b) x := by
  unfold strContains at *
  rw [String.data_append]
  exact h.trans ⟨[], b.data, by simp⟩

/-- An infix whose head survives `dropWhile` is still an infix after it. -/
theorem infix_dropWhile_of_head {α : Type} [DecidableEq α] (p : α → Bool) {y m : List α}
    (h : y <:+: m) {c : α} (hc : y.head? = some c) (hpc : p c = false) :
    y <:+: m.dropWhile p := by
  rcases h with ⟨a, b, rfl⟩
  induction a with
  | nil =>
    cases y with
    | nil => cases hc
    | cons d t =>
      have hdc : d = c := by simpa using hc
      subst hdc
      rw [List.nil_append, List.cons_append, List.dropWhile_cons, if_neg (by simp [hpc])]
      exact ⟨[], b, by simp⟩
  | cons e a' ih =>
    rw [List.cons_append, List.cons_append, List.dropWhile_cons]
    by_cases hpe : p e = true
    · rw [if_pos hpe]
      exact ih
    · rw [if_neg hpe]
      exact ⟨e :: a', b, by simp⟩

/-- Containment survives the final `trim() + "\n"` provided the
document starts with a non-space character and the pattern ends with a
non-space character. -/
theorem strContains_trim {s x : String} (h : strContains s x)
    (hs : ∃ c, s.data.head? = some c ∧ jsIsSpace c = false)
    (hx : ∃ c, x.data.getLast? = some c ∧ jsIsSpace c = false) :
    strContains (jsTrim s ++ "\n") x := by
  unfold strContains at *
  rcases hs with ⟨c, hc, hpc⟩
  rcases hx with ⟨d, hd, hpd⟩
  have hne : s.data.dropWhile jsIsSpace = s.data := by
    rcases hs3 : s.data with _ | ⟨e, t⟩
    · rfl
    · rw [List.dropWhile_cons]
      rw [hs3] at hc
      have hec : e = c := by simpa using hc
      subst hec
      rw [if_neg (by simp [hpc])]
  have h1 : x.data <:+: s.data.dropWhile jsIsSpace := by
    rw [hne]; exact h
  have h2 : x.data.reverse <:+: (s.data.dropWhile jsIsSpace).reverse :=
    List.reverse_infix.mpr h1
  have hhead : x.data.reverse.head? = some d := by
    rw [List.head?_reverse]; exact hd
  have h3 : x.data.reverse <:+: ((s.data.dropWhile jsIsSpace).reverse.dropWhile jsIsSpace) :=
    infix_dropWhile_of_head jsIsSpace h2 hhead hpd
  have h4 : x.data <:+: ((s.data.dropWhile jsIsSpace).reverse.dropWhile jsIsSpace).reverse := by
    simpa using List.reverse_infix.mpr h3
  have heq : (jsTrim s ++ "\n").data =
      ((s.data.dropWhile jsIsSpace).reverse.dropWhile jsIsSpace).reverse ++ "\n".data := by
    simp [jsTrim, jsTrimL, String.data_append]
  rw [heq]
  exact h4.trans ⟨[], "\n".data, by simp⟩

end Radix


namespace Radix

/-! ## sortVarNames lemmas and claims C5, C10 -/

theorem svnIndexOf_some {s ia : String} (h : svnIndexOf s = some ia) :
    ∃ l, ia = String.mk l ∧ idxCheck l = true := by
  unfold svnIndexOf at h
  split at h
  case h_2 => cases h
  case h_1 =>
    split at h
    next => cases h
    next =>
      split at h
      next => cases h
      next =>
        split at h
        next => cases h
        next =>
          split at h
          next hdig =>
            refine ⟨_, by injection h with h2; exact h2.symm, ?_⟩
            unfold idxCheck
            simp only [Bool.or_eq_true]
            left
            simpa using hdig
          next =>
            split at h
            next hds =>
              refine ⟨_, by injection h with h2; exact h2.symm, ?_⟩
              unfold idxCheck
              simp only [Bool.or_eq_true]
              right
              simpa using hds
            next => cases h

theorem idxCheck_parse {l : List Char} (h : idxCheck l = true) :
    ∃ n, idxParseNum (String.mk l) (idxIsAlpha (String.mk l)) = some n := by
  unfold idxCheck at h
  simp only [Bool.or_eq_true, Bool.and_eq_true] at h
  rcases h with ⟨h1, hdig⟩ | ⟨⟨hhead, hne⟩, hdig⟩
  · have hne : l.isEmpty = false := by simpa using h1
    have halpha : idxIsAlpha (String.mk l) = false := by
      unfold idxIsAlpha strStartsWith
      cases l with
      | nil => simp at hne
      | cons c t =>
        have hcd : isDigitCh c = true := by
          have := List.all_eq_true.mp hdig c (by simp)
          simpa using this
        show List.isPrefixOf ['a'] (c :: t) = false
        by_cases hca : c = 'a'
        · subst hca; simp [isDigitCh] at hcd
        · simp [List.isPrefixOf]
          intro hh
          exact absurd hh.symm hca
    rw [halpha]
    unfold idxParseNum
    refine ⟨digitsToNat l, ?_⟩
    simp [hne, hdig]
  · cases l with
    | nil => simp at hhead
    | cons c ds =>
      have hca : c = 'a' := by simpa using hhead
      subst hca
      have hne' : ds.isEmpty = false := by simpa using hne
      have hdig' : ds.all isDigitCh = true := by simpa using hdig
      have halpha : idxIsAlpha (String.mk ('a' :: ds)) = true := by
        unfold idxIsAlpha strStartsWith
        show List.isPrefixOf ['a'] ('a' :: ds) = true
        simp [List.isPrefixOf]
      rw [halpha]
      unfold idxParseNum
      refine ⟨digitsToNat ds, ?_⟩
      simp [hne', hdig']

theorem svn_parse_some {s ia : String} (h : svnIndexOf s = some ia) :
    ∃ n, idxParseNum ia (idxIsAlpha ia) = some n := by
  rcases svnIndexOf_some h with ⟨l, rfl, hch⟩
  exact idxCheck_parse hch

/-- Claim C5: for identifiers matching the `--<stem>-(\d+|a\d+)` pattern
the comparator puts every solid index before every alpha index and
orders within a group by the numeric index ascending (its value is
`numA - numB`); the two example lists sort as specified; and when
either identifier fails to match, the comparator falls back to the
lexical comparison of the whole identifiers. -/
theorem claim_C5 :
    (∀ a b ia ib, svnIndexOf a = some ia → svnIndexOf b = some ib →
      (idxIsAlpha ia = false → idxIsAlpha ib = true → sortVarNames a b < 0) ∧
      (idxIsAlpha ia = true → idxIsAlpha ib = false → 0 < sortVarNames a b) ∧
      (idxIsAlpha ia = idxIsAlpha ib →
        ∃ na nb, idxParseNum ia (idxIsAlpha ia) = some na ∧
          idxParseNum ib (idxIsAlpha ib) = some nb ∧
          sortVarNames a b = (na : Int) - (nb : Int))) ∧
    jsSortStable sortVarNames ["--red-10", "--red-1", "--red-2"] =
      ["--red-1", "--red-2", "--red-10"] ∧
    jsSortStable sortVarNames ["--red-a1", "--red-10", "--red-1", "--red-a2"] =
      ["--red-1", "--red-10", "--red-a1", "--red-a2"] ∧
    (∀ a b, (svnIndexOf a = none ∨ svnIndexOf b = none) →
      sortVarNames a b = jsLocaleCompare a b) := by
  refine ⟨?_, by decide, by decide, ?_⟩
  · intro a b ia ib ha hb
    refine ⟨?_, ?_, ?_⟩
    · intro h1 h2
      unfold sortVarNames
      rw [ha, hb]
      show (if idxIsAlpha ia ≠ idxIsAlpha ib then (if idxIsAlpha ia then 1 else -1)
        else match idxParseNum ia (idxIsAlpha ia), idxParseNum ib (idxIsAlpha ib) with
          | some numA, some numB => (numA : Int) - (numB : Int)
          | _, _ => jsLocaleCompare a b) < 0
      rw [if_pos (by simp [h1, h2]), if_neg (by simp [h1])]
      decide
    · intro h1 h2
      unfold sortVarNames
      rw [ha, hb]
      show 0 < (if idxIsAlpha ia ≠ idxIsAlpha ib then (if idxIsAlpha ia then 1 else -1)
        else match idxParseNum ia (idxIsAlpha ia), idxParseNum ib (idxIsAlpha ib) with
          | some numA, some numB => (numA : Int) - (numB : Int)
          | _, _ => jsLocaleCompare a b)
      rw [if_pos (by simp [h1, h2]), if_pos (by simp [h1])]
      decide
    · intro hsame
      rcases svn_parse_some ha with ⟨na, hna⟩
      rcases svn_parse_some hb with ⟨nb, hnb⟩
      refine ⟨na, nb, hna, hnb, ?_⟩
      unfold sortVarNames
      rw [ha, hb]
      show (if idxIsAlpha ia ≠ idxIsAlpha ib then (if idxIsAlpha ia then 1 else -1)
        else match idxParseNum ia (idxIsAlpha ia), idxParseNum ib (idxIsAlpha ib) with
          | some numA, some numB => (numA : Int) - (numB : Int)
          | _, _ => jsLocaleCompare a b) = (na : Int) - (nb : Int)
      rw [if_neg (by simp [hsame])]
      rw [hna, hnb]
  · intro a b h
    unfold sortVarNames
    rcases h with h | h
    · rw [h]
    · rw [h]
      cases svnIndexOf a <;> rfl

/-- Claim C10 (implicit): the comparator inspects only the trailing
index segment, so two distinct matching identifiers with the same
alpha-kind and the same numeric index compare as 0 — e.g. `--blue-3`
vs `--red-3` — so it is a total preorder, not a strict total order on
distinct identifiers; the relative order of such ties is whatever the
stable sort preserves from the input order. -/
theorem claim_C10 :
    (∀ a b ia ib na nb, svnIndexOf a = some ia → svnIndexOf b = some ib →
      idxIsAlpha ia = idxIsAlpha ib →
      idxParseNum ia (idxIsAlpha ia) = some na →
      idxParseNum ib (idxIsAlpha ib) = some nb →
      na = nb → sortVarNames a b = 0) ∧
    (sortVarNames "--blue-3" "--red-3" = 0 ∧ "--blue-3" ≠ "--red-3") ∧
    jsSortStable sortVarNames ["--red-3", "--blue-3"] = ["--red-3", "--blue-3"] ∧
    jsSortStable sortVarNames ["--blue-3", "--red-3"] = ["--blue-3", "--red-3"] := by
  refine ⟨?_, by decide, by decide, by decide⟩
  intro a b ia ib na nb ha hb hsame hna hnb hnum
  unfold sortVarNames
  rw [ha, hb]
  show (if idxIsAlpha ia ≠ idxIsAlpha ib then (if idxIsAlpha ia then 1 else -1)
    else match idxParseNum ia (idxIsAlpha ia), idxParseNum ib (idxIsAlpha ib) with
      | some numA, some numB => (numA : Int) - (numB : Int)
      | _, _ => jsLocaleCompare a b) = 0
  rw [if_neg (by simp [hsame])]
  rw [hna, hnb]
  subst hnum
  simp

/-- Witness for claim C5 at concrete inputs. -/
theorem claim_C5_witness :
    sortVarNames "--red-1" "--red-a1" < 0 ∧
      sortVarNames "--mint-x" "--mint-1" = jsLocaleCompare "--mint-x" "--mint-1" := by
  constructor
  · exact (claim_C5.1 "--red-1" "--red-a1" "1" "a1" (by decide) (by decide)).1
      (by decide) (by decide)
  · exact claim_C5.2.2.2 "--mint-x" "--mint-1" (Or.inl (by decide))

/-- Witness for claim C10 at concrete inputs. -/
theorem claim_C10_witness : sortVarNames "--blue-3" "--red-3" = 0 :=
  claim_C10.1 "--blue-3" "--red-3" "3" "3" 3 3 (by decide) (by decide) (by decide)
    (by decide) (by decide) (by decide)

end Radix

namespace Radix

/-! ## Monotonicity of the construction loop -/

/-- `b` extends `a` by appending. -/
def ExtL (a b : List String) : Prop := ∃ d, b = a ++ d

theorem extL_refl (a : List String) : ExtL a a := ⟨[], (List.append_nil a).symm⟩

theorem extL_app (a d : List String) : ExtL a (a ++ d) := ⟨d, rfl⟩

theorem extL_trans {a b c : List String} (h1 : ExtL a b) (h2 : ExtL b c) : ExtL a c := by
  rcases h1 with ⟨d1, rfl⟩
  rcases h2 with ⟨d2, rfl⟩
  exact ⟨d1 ++ d2, List.append_assoc a d1 d2⟩

theorem ExtL.mem {a b : List String} {x : String} (h : ExtL a b) (hx : x ∈ a) : x ∈ b := by
  rcases h with ⟨d, rfl⟩
  exact List.mem_append_left d hx

/-- Every output list of the construction state only grows. -/
structure EmitLe (s t : EmitState) : Prop where
  light : ExtL s.light t.light
  dark : ExtL s.dark t.dark
  theme : ExtL s.theme t.theme
  inter : ExtL s.inter t.inter
  p3L : ExtL s.p3L t.p3L
  p3D : ExtL s.p3D t.p3D
  p3I : ExtL s.p3I t.p3I
  logs : ExtL s.logs t.logs

theorem emitLe_refl (s : EmitState) : EmitLe s s :=
  ⟨extL_refl _, extL_refl _, extL_refl _, extL_refl _, extL_refl _, extL_refl _, extL_refl _,
    extL_refl _⟩

theorem emitLe_trans {s t u : EmitState} (h1 : EmitLe s t) (h2 : EmitLe t u) : EmitLe s u :=
  ⟨extL_trans h1.light h2.light, extL_trans h1.dark h2.dark, extL_trans h1.theme h2.theme,
    extL_trans h1.inter h2.inter, extL_trans h1.p3L h2.p3L, extL_trans h1.p3D h2.p3D,
    extL_trans h1.p3I h2.p3I, extL_trans h1.logs h2.logs⟩

theorem emitLe_procLightSrgb (bn idx vn lv : String) (st : EmitState) :
    EmitLe st (procLightSrgb bn idx vn lv st) := by
  unfold procLightSrgb
  split
  · split
    · exact ⟨extL_app _ _, extL_refl _, extL_refl _, extL_refl _, extL_refl _, extL_refl _,
        extL_refl _, extL_refl _⟩
    · exact ⟨extL_app _ _, extL_refl _, extL_refl _, extL_app _ _, extL_refl _, extL_refl _,
        extL_refl _, extL_refl _⟩
  · exact ⟨extL_refl _, extL_refl _, extL_refl _, extL_refl _, extL_refl _, extL_refl _,
      extL_refl _, extL_app _ _⟩
  · exact emitLe_refl st

theorem emitLe_procLightP3 (bn idx pv : String) (st : EmitState) :
    EmitLe st (procLightP3 bn idx pv st) := by
  unfold procLightP3
  split
  · exact ⟨extL_refl _, extL_refl _, extL_refl _, extL_refl _, extL_app _ _, extL_refl _,
      extL_refl _, extL_refl _⟩
  · exact ⟨extL_refl _, extL_refl _, extL_refl _, extL_refl _, extL_app _ _, extL_refl _,
      extL_app _ _, extL_refl _⟩

theorem emitLe_procLight (bn idx vn : String) (cd : ColorDefinition) (st : EmitState) :
    EmitLe st (procLight bn idx vn cd st) := by
  unfold procLight
  split
  · split
    · exact emitLe_refl st
    · split
      · split
        · exact emitLe_procLightSrgb bn idx vn _ st
        · exact emitLe_trans (emitLe_procLightSrgb bn idx vn _ st) (emitLe_procLightP3 _ _ _ _)
      · exact emitLe_procLightSrgb bn idx vn _ st
  · exact emitLe_refl st

theorem emitLe_procDarkSrgb (bn idx vn dv : String) (st : EmitState) :
    EmitLe st (procDarkSrgb bn idx vn dv st) := by
  unfold procDarkSrgb
  split
  · split
    · exact ⟨extL_refl _, extL_app _ _, extL_refl _, extL_refl _, extL_refl _, extL_refl _,
        extL_refl _, extL_refl _⟩
    · exact ⟨extL_refl _, extL_app _ _, extL_refl _, extL_app _ _, extL_refl _, extL_refl _,
        extL_refl _, extL_refl _⟩
  · exact ⟨extL_refl _, extL_refl _, extL_refl _, extL_refl _, extL_refl _, extL_refl _,
      extL_refl _, extL_app _ _⟩
  · exact emitLe_refl st

theorem emitLe_procDarkP3 (bn idx pv : String) (st : EmitState) :
    EmitLe st (procDarkP3 bn idx pv st) := by
  unfold procDarkP3
  split
  · exact ⟨extL_refl _, extL_refl _, extL_refl _, extL_refl _, extL_refl _, extL_app _ _,
      extL_refl _, extL_refl _⟩
  · exact ⟨extL_refl _, extL_refl _, extL_refl _, extL_refl _, extL_refl _, extL_app _ _,
      extL_app _ _, extL_refl _⟩

theorem emitLe_procDark (bn idx vn : String) (cd : ColorDefinition) (st : EmitState) :
    EmitLe st (procDark bn idx vn cd st) := by
  unfold procDark
  split
  · split
    · exact emitLe_refl st
    · split
      · split
        · exact emitLe_procDarkSrgb bn idx vn _ st
        · exact emitLe_trans (emitLe_procDarkSrgb bn idx vn _ st) (emitLe_procDarkP3 _ _ _ _)
      · exact emitLe_procDarkSrgb bn idx vn _ st
  · exact emitLe_refl st

theorem emitLe_pushTheme (st : EmitState) (line : String) :
    EmitLe st { st with theme := st.theme ++ [line] } :=
  ⟨extL_refl _, extL_refl _, extL_app _ _, extL_refl _, extL_refl _, extL_refl _, extL_refl _,
    extL_refl _⟩

theorem emitLe_processVar (bn : String) (st : EmitState) (e : String × ParsedColorValue) :
    EmitLe st (processVar bn st e) := by
  unfold processVar
  split
  · exact emitLe_refl st
  · exact emitLe_trans
      (emitLe_trans (emitLe_pushTheme st _) (emitLe_procLight _ _ _ _ _))
      (emitLe_procDark _ _ _ _ _)

theorem emitLe_emitStep (bn : String) (tbl : List (String × ParsedColorValue))
    (st : EmitState) (v : String) : EmitLe st (emitStep bn tbl st v) := by
  unfold emitStep
  split
  · exact emitLe_processVar bn st _
  · exact emitLe_refl st

theorem emitLe_foldl (bn : String) (tbl : List (String × ParsedColorValue))
    (l : List String) (st : EmitState) : EmitLe st (l.foldl (emitStep bn tbl) st) := by
  induction l generalizing st with
  | nil => exact emitLe_refl st
  | cons v t ih =>
    exact emitLe_trans (emitLe_emitStep bn tbl st v) (ih (emitStep bn tbl st v))

end Radix


namespace Radix

/-! ## String-shape lemmas for generated lines -/

theorem str_ext {a b : String} (h : a.data = b.data) : a = b := by
  cases a
  cases b
  exact congrArg String.mk h

theorem isPrefixOf_append_same {A x y : List Char} :
    (A ++ x).isPrefixOf (A ++ y) = x.isPrefixOf y := by
  induction A with
  | nil => rfl
  | cons c A ih => simp [List.isPrefixOf, ih]

theorem colon_prefix_iff (r : List Char) :
    ∀ v w : List Char, (∀ c ∈ v, c ≠ ':') → (∀ c ∈ w, c ≠ ':') →
      (((v ++ [':']).isPrefixOf (w ++ ':' :: r) = true) ↔ v = w) := by
  intro v
  induction v with
  | nil =>
    intro w hv hw
    cases w with
    | nil => simp [List.isPrefixOf]
    | cons d w' =>
      have hd : d ≠ ':' := hw d (List.mem_cons_self d w')
      apply iff_of_false
      · intro h
        have hbeq : (':' : Char) = d := by
          simpa [List.isPrefixOf] using h
        exact hd hbeq.symm
      · intro h
        simp at h
  | cons c v' ih =>
    intro w hv hw
    cases w with
    | nil =>
      have hc : c ≠ ':' := hv c (List.mem_cons_self c v')
      apply iff_of_false
      · intro h
        have hbeq : c = ':' ∧ (v' ++ [':']) <+: r := by
          simpa [List.isPrefixOf] using h
        exact hc hbeq.1
      · intro h
        simp at h
    | cons d w' =>
      have hv' : ∀ x ∈ v', x ≠ ':' := fun x hx => hv x (List.mem_cons_of_mem c hx)
      have hw' : ∀ x ∈ w', x ≠ ':' := fun x hx => hw x (List.mem_cons_of_mem d hx)
      constructor
      · intro h
        have h2 : (c = d) ∧ ((v' ++ [':']).isPrefixOf (w' ++ ':' :: r) = true) := by
          simpa [List.isPrefixOf, Bool.and_eq_true] using h
        rw [h2.1, (ih w' hv' hw').mp h2.2]
      · intro h
        injection h with h1 h2
        subst h1
        subst h2
        simp only [List.cons_append, List.isPrefixOf, beq_self_eq_true, Bool.true_and]
        exact (ih v' hv' hv').mpr rfl

/-- The character set of generated variable names (word characters and
hyphens); such names contain no colon and no whitespace. -/
def GoodStr (s : String) : Prop :=
  s.data.all (fun c => isWordCh c || c = '-') = true

instance (s : String) : Decidable (GoodStr s) := by
  unfold GoodStr
  infer_instance

theorem GoodStr.no_colon {s : String} (h : GoodStr s) : ∀ c ∈ s.data, c ≠ ':' := by
  intro c hc hcol
  subst hcol
  have := List.all_eq_true.mp h ':' hc
  revert this
  decide

theorem GoodStr.append {a b : String} (ha : GoodStr a) (hb : GoodStr b) : GoodStr (a ++ b) := by
  unfold GoodStr at *
  rw [String.data_append, List.all_append, ha, hb]
  rfl

theorem goodStr_outputStem {bn : String} (h : GoodStr bn) : GoodStr (outputStemName bn) := by
  unfold outputStemName
  split
  · decide
  · split
    · decide
    · exact h

theorem isDigitCh_isWordCh {c : Char} (h : isDigitCh c = true) : isWordCh c = true := by
  unfold isWordCh
  rw [h]
  simp

theorem idxCheck_good {l : List Char} (h : idxCheck l = true) :
    (String.mk l).data.all (fun c => isWordCh c || c = '-') = true := by
  show l.all _ = true
  unfold idxCheck at h
  simp only [Bool.or_eq_true, Bool.and_eq_true] at h
  rcases h with ⟨_, hdig⟩ | ⟨⟨hhead, _⟩, hdig⟩
  · refine List.all_eq_true.mpr ?_
    intro c hc
    have := List.all_eq_true.mp hdig c hc
    simp [isDigitCh_isWordCh this]
  · cases l with
    | nil => simp at hhead
    | cons c ds =>
      have hca : c = 'a' := by simpa using hhead
      subst hca
      refine List.all_eq_true.mpr ?_
      intro c hc
      rcases List.mem_cons.mp hc with rfl | hc'
      · decide
      · have hd : isDigitCh c = true := by
          have hall : ds.all isDigitCh = true := by simpa using hdig
          have := List.all_eq_true.mp hall c hc'
          simpa using this
        simp [isDigitCh_isWordCh hd]

theorem goodStr_idx {idx : String} (h : idxCheck idx.data = true) : GoodStr idx := by
  have := idxCheck_good h
  unfold GoodStr
  simpa using this

theorem goodStr_rgbVarName {bn idx : String} (hbn : GoodStr bn)
    (hidx : idxCheck idx.data = true) : GoodStr (rgbVarName bn idx) := by
  unfold rgbVarName
  exact GoodStr.append
    (GoodStr.append (GoodStr.append (by decide) (goodStr_outputStem hbn)) (by decide))
    (goodStr_idx hidx)

theorem goodStr_interVarName {bn idx : String} (hbn : GoodStr bn)
    (hidx : idxCheck idx.data = true) : GoodStr (interVarName bn idx) := by
  unfold interVarName
  exact GoodStr.append
    (GoodStr.append (GoodStr.append (by decide) (goodStr_outputStem hbn)) (by decide))
    (goodStr_idx hidx)

theorem goodStr_themeVarName {bn idx : String} (hbn : GoodStr bn)
    (hidx : idxCheck idx.data = true) : GoodStr (themeVarName bn idx) := by
  unfold themeVarName
  exact GoodStr.append
    (GoodStr.append (GoodStr.append (by decide) (goodStr_outputStem hbn)) (by decide))
    (goodStr_idx hidx)

theorem interVarName_inj {bn idx idx' : String}
    (h : interVarName bn idx = interVarName bn idx') : idx = idx' := by
  unfold interVarName at h
  have hd := congrArg String.data h
  simp only [String.data_append] at hd
  exact str_ext (List.append_cancel_left hd)

/-- The prefix test the duplicate guards perform on a generated line
identifies exactly the line's declared variable name. -/
theorem mkDeclLine_startsWith_iff (rest : String) {name pat : String}
    (hn : ∀ c ∈ name.data, c ≠ ':') (hp : ∀ c ∈ pat.data, c ≠ ':') :
    (strStartsWith (mkDeclLine name rest) ("  " ++ pat ++ ":") = true) ↔ pat = name := by
  unfold strStartsWith mkDeclLine
  have h1 : ("  " ++ pat ++ ":").data = [' ', ' '] ++ (pat.data ++ [':']) := by
    simp [String.data_append]
  have h2 : ("  " ++ name ++ ":" ++ rest).data =
      [' ', ' '] ++ (name.data ++ (':' :: rest.data)) := by
    simp [String.data_append]
  rw [h1, h2, isPrefixOf_append_same, colon_prefix_iff rest.data pat.data name.data hp hn]
  exact ⟨fun h => str_ext h, fun h => by rw [h]⟩

theorem mkDeclLine_startsWith_self (rest : String) {name : String}
    (hn : ∀ c ∈ name.data, c ≠ ':') :
    strStartsWith (mkDeclLine name rest) ("  " ++ name ++ ":") = true :=
  (mkDeclLine_startsWith_iff rest hn hn).mpr rfl

end Radix

namespace Radix

/-! ## Canonical-form invariant of the construction loop -/

/-- The duplicate-guard predicate for the intermediate variable of
`idx`. -/
def interHeadP (bn idx : String) (l : String) : Bool :=
  strStartsWith l ("  " ++ interVarName bn idx ++ ":")

theorem interGuardHit_eq (bn idx : String) (lines : List String) :
    interGuardHit (interVarName bn idx) lines = lines.any (interHeadP bn idx) := rfl

theorem interHeadP_mk_iff {bn idx idx' : String} (hbn : GoodStr bn)
    (h1 : idxCheck idx.data = true) (h2 : idxCheck idx'.data = true) (rest : String) :
    interHeadP bn idx (mkDeclLine (interVarName bn idx') rest) = true ↔ idx' = idx := by
  unfold interHeadP
  rw [mkDeclLine_startsWith_iff rest (goodStr_interVarName hbn h2).no_colon
    (goodStr_interVarName hbn h1).no_colon]
  constructor
  · intro h
    exact (interVarName_inj h).symm
  · rintro rfl
    rfl

theorem interHeadP_interLine_iff {bn i idx : String} (hbn : GoodStr bn)
    (hic : idxCheck i.data = true) (hidx : idxCheck idx.data = true) :
    interHeadP bn i (interLineOf bn idx) = true ↔ idx = i := by
  unfold interLineOf
  exact interHeadP_mk_iff hbn hic hidx _

theorem interHeadP_p3InterLine_iff {bn i idx : String} (hbn : GoodStr bn)
    (hic : idxCheck i.data = true) (hidx : idxCheck idx.data = true) :
    interHeadP bn i (p3InterLineOf bn idx) = true ↔ idx = i := by
  unfold p3InterLineOf
  exact interHeadP_mk_iff hbn hic hidx _

/-- Invariant carried through the construction loop: every intermediate
line is canonical and backed by a base-variable line, every gamut
intermediate override is canonical, and both lists define each
intermediate variable at most once. -/
def EmitInv (bn : String) (st : EmitState) : Prop :=
  (∀ l ∈ st.inter, ∃ idx, idxCheck idx.data = true ∧ l = interLineOf bn idx ∧
    ∃ l', (l' ∈ st.light ∨ l' ∈ st.dark) ∧
      strStartsWith l' ("  " ++ rgbVarName bn idx ++ ":") = true) ∧
  (∀ l ∈ st.p3I, ∃ idx, idxCheck idx.data = true ∧ l = p3InterLineOf bn idx) ∧
  (∀ idx, idxCheck idx.data = true → st.inter.countP (interHeadP bn idx) ≤ 1) ∧
  (∀ idx, idxCheck idx.data = true → st.p3I.countP (interHeadP bn idx) ≤ 1)

theorem emitInv_empty (bn : String) : EmitInv bn emptyEmitState := by
  refine ⟨?_, ?_, ?_, ?_⟩ <;> intro l hl <;> simp_all [emptyEmitState]

theorem emitInv_procLightSrgb {bn : String} {st : EmitState} (hbn : GoodStr bn)
    {idx : String} (hidx : idxCheck idx.data = true) (vn lv : String)
    (hinv : EmitInv bn st) : EmitInv bn (procLightSrgb bn idx vn lv st) := by
  obtain ⟨h1, h2, h3, h4⟩ := hinv
  unfold procLightSrgb
  split
  case h_2 => exact ⟨h1, h2, h3, h4⟩
  case h_3 => exact ⟨h1, h2, h3, h4⟩
  case h_1 fv heqn =>
    split
    · refine ⟨?_, h2, h3, h4⟩
      intro l hl
      rcases h1 l hl with ⟨i, hic, hle, l', hl', hsw⟩
      refine ⟨i, hic, hle, l', ?_, hsw⟩
      rcases hl' with hL | hD
      · exact Or.inl (List.mem_append_left _ hL)
      · exact Or.inr hD
    · rename_i hg
      have hgf : st.inter.any (interHeadP bn idx) = false := by
        rw [← interGuardHit_eq]
        exact Bool.not_eq_true _ ▸ (by simpa using hg)
      refine ⟨?_, h2, ?_, h4⟩
      · intro l hl
        rcases List.mem_append.mp hl with hl' | hl'
        · rcases h1 l hl' with ⟨i, hic, hle, l', hl'', hsw⟩
          refine ⟨i, hic, hle, l', ?_, hsw⟩
          rcases hl'' with hL | hD
          · exact Or.inl (List.mem_append_left _ hL)
          · exact Or.inr hD
        · have hleq : l = interLineOf bn idx := by simpa using hl'
          subst hleq
          refine ⟨idx, hidx, rfl, defLineOf bn idx fv,
            Or.inl (List.mem_append_right _ (by simp)), ?_⟩
          exact mkDeclLine_startsWith_self _ (goodStr_rgbVarName hbn hidx).no_colon
      · intro i hic
        rw [List.countP_append]
        by_cases hii : idx = i
        · subst hii
          have hzero : st.inter.countP (interHeadP bn idx) = 0 := by
            refine List.countP_eq_zero.mpr ?_
            intro a ha
            have := List.any_eq_false.mp hgf a ha
            simpa using this
          have hone : interHeadP bn idx (interLineOf bn idx) = true :=
            (interHeadP_interLine_iff hbn hidx hidx).mpr rfl
          rw [hzero]
          simp [List.countP_cons, hone]
        · have hval : interHeadP bn i (interLineOf bn idx) = false := by
            rw [Bool.eq_false_iff]
            intro hc
            exact hii ((interHeadP_interLine_iff hbn hic hidx).mp hc)
          have := h3 i hic
          simp [List.countP_cons, hval]
          omega

theorem emitInv_procLightP3 {bn : String} {st : EmitState} (hbn : GoodStr bn)
    {idx : String} (hidx : idxCheck idx.data = true) (pv : String)
    (hinv : EmitInv bn st) : EmitInv bn (procLightP3 bn idx pv st) := by
  obtain ⟨h1, h2, h3, h4⟩ := hinv
  unfold procLightP3
  split
  · exact ⟨h1, h2, h3, h4⟩
  · rename_i hg
    have hgf : st.p3I.any (interHeadP bn idx) = false := by
      rw [← interGuardHit_eq]
      exact Bool.not_eq_true _ ▸ (by simpa using hg)
    refine ⟨h1, ?_, h3, ?_⟩
    · intro l hl
      rcases List.mem_append.mp hl with hl' | hl'
      · exact h2 l hl'
      · have hleq : l = p3InterLineOf bn idx := by simpa using hl'
        subst hleq
        exact ⟨idx, hidx, rfl⟩
    · intro i hic
      rw [List.countP_append]
      by_cases hii : idx = i
      · subst hii
        have hzero : st.p3I.countP (interHeadP bn idx) = 0 := by
          refine List.countP_eq_zero.mpr ?_
          intro a ha
          have := List.any_eq_false.mp hgf a ha
          simpa using this
        have hone : interHeadP bn idx (p3InterLineOf bn idx) = true :=
          (interHeadP_p3InterLine_iff hbn hidx hidx).mpr rfl
        rw [hzero]
        simp [List.countP_cons, hone]
      · have hval : interHeadP bn i (p3InterLineOf bn idx) = false := by
          rw [Bool.eq_false_iff]
          intro hc
          exact hii ((interHeadP_p3InterLine_iff hbn hic hidx).mp hc)
        have := h4 i hic
        simp [List.countP_cons, hval]
        omega

end Radix

namespace Radix

theorem emitInv_procDarkSrgb {bn : String} {st : EmitState} (hbn : GoodStr bn)
    {idx : String} (hidx : idxCheck idx.data = true) (vn dv : String)
    (hinv : EmitInv bn st) : EmitInv bn (procDarkSrgb bn idx vn dv st) := by
  obtain ⟨h1, h2, h3, h4⟩ := hinv
  unfold procDarkSrgb
  split
  case h_2 => exact ⟨h1, h2, h3, h4⟩
  case h_3 => exact ⟨h1, h2, h3, h4⟩
  case h_1 fv heqn =>
    split
    · refine ⟨?_, h2, h3, h4⟩
      intro l hl
      rcases h1 l hl with ⟨i, hic, hle, l', hl', hsw⟩
      refine ⟨i, hic, hle, l', ?_, hsw⟩
      rcases hl' with hL | hD
      · exact Or.inl hL
      · exact Or.inr (List.mem_append_left _ hD)
    · rename_i hg
      have hgf : st.inter.any (interHeadP bn idx) = false := by
        rw [← interGuardHit_eq]
        exact Bool.not_eq_true _ ▸ (by simpa using hg)
      refine ⟨?_, h2, ?_, h4⟩
      · intro l hl
        rcases List.mem_append.mp hl with hl' | hl'
        · rcases h1 l hl' with ⟨i, hic, hle, l', hl'', hsw⟩
          refine ⟨i, hic, hle, l', ?_, hsw⟩
          rcases hl'' with hL | hD
          · exact Or.inl hL
          · exact Or.inr (List.mem_append_left _ hD)
        · have hleq : l = interLineOf bn idx := by simpa using hl'
          subst hleq
          refine ⟨idx, hidx, rfl, defLineOf bn idx fv,
            Or.inr (List.mem_append_right _ (by simp)), ?_⟩
          exact mkDeclLine_startsWith_self _ (goodStr_rgbVarName hbn hidx).no_colon
      · intro i hic
        rw [List.countP_append]
        by_cases hii : idx = i
        · subst hii
          have hzero : st.inter.countP (interHeadP bn idx) = 0 := by
            refine List.countP_eq_zero.mpr ?_
            intro a ha
            have := List.any_eq_false.mp hgf a ha
            simpa using this
          have hone : interHeadP bn idx (interLineOf bn idx) = true :=
            (interHeadP_interLine_iff hbn hidx hidx).mpr rfl
          rw [hzero]
          simp [List.countP_cons, hone]
        · have hval : interHeadP bn i (interLineOf bn idx) = false := by
            rw [Bool.eq_false_iff]
            intro hc
            exact hii ((interHeadP_interLine_iff hbn hic hidx).mp hc)
          have := h3 i hic
          simp [List.countP_cons, hval]
          omega

theorem emitInv_procDarkP3 {bn : String} {st : EmitState} (hbn : GoodStr bn)
    {idx : String} (hidx : idxCheck idx.data = true) (pv : String)
    (hinv : EmitInv bn st) : EmitInv bn (procDarkP3 bn idx pv st) := by
  obtain ⟨h1, h2, h3, h4⟩ := hinv
  unfold procDarkP3
  split
  · exact ⟨h1, h2, h3, h4⟩
  · rename_i hg
    have hgf : st.p3I.any (interHeadP bn idx) = false := by
      rw [← interGuardHit_eq]
      exact Bool.not_eq_true _ ▸ (by simpa using hg)
    refine ⟨h1, ?_, h3, ?_⟩
    · intro l hl
      rcases List.mem_append.mp hl with hl' | hl'
      · exact h2 l hl'
      · have hleq : l = p3InterLineOf bn idx := by simpa using hl'
        subst hleq
        exact ⟨idx, hidx, rfl⟩
    · intro i hic
      rw [List.countP_append]
      by_cases hii : idx = i
      · subst hii
        have hzero : st.p3I.countP (interHeadP bn idx) = 0 := by
          refine List.countP_eq_zero.mpr ?_
          intro a ha
          have := List.any_eq_false.mp hgf a ha
          simpa using this
        have hone : interHeadP bn idx (p3InterLineOf bn idx) = true :=
          (interHeadP_p3InterLine_iff hbn hidx hidx).mpr rfl
        rw [hzero]
        simp [List.countP_cons, hone]
      · have hval : interHeadP bn i (p3InterLineOf bn idx) = false := by
          rw [Bool.eq_false_iff]
          intro hc
          exact hii ((interHeadP_p3InterLine_iff hbn hic hidx).mp hc)
        have := h4 i hic
        simp [List.countP_cons, hval]
        omega

theorem emitInv_procLight {bn : String} {st : EmitState} (hbn : GoodStr bn)
    {idx : String} (hidx : idxCheck idx.data = true) (vn : String)
    (cd : ColorDefinition) (hinv : EmitInv bn st) :
    EmitInv bn (procLight bn idx vn cd st) := by
  unfold procLight
  split
  · split
    · exact hinv
    · split
      · split
        · exact emitInv_procLightSrgb hbn hidx vn _ hinv
        · exact emitInv_procLightP3 hbn hidx _ (emitInv_procLightSrgb hbn hidx vn _ hinv)
      · exact emitInv_procLightSrgb hbn hidx vn _ hinv
  · exact hinv

theorem emitInv_procDark {bn : String} {st : EmitState} (hbn : GoodStr bn)
    {idx : String} (hidx : idxCheck idx.data = true) (vn : String)
    (cd : ColorDefinition) (hinv : EmitInv bn st) :
    EmitInv bn (procDark bn idx vn cd st) := by
  unfold procDark
  split
  · split
    · exact hinv
    · split
      · split
        · exact emitInv_procDarkSrgb hbn hidx vn _ hinv
        · exact emitInv_procDarkP3 hbn hidx _ (emitInv_procDarkSrgb hbn hidx vn _ hinv)
      · exact emitInv_procDarkSrgb hbn hidx vn _ hinv
  · exact hinv

theorem emitInv_pushTheme {bn : String} {st : EmitState} (line : String)
    (hinv : EmitInv bn st) : EmitInv bn { st with theme := st.theme ++ [line] } := by
  obtain ⟨h1, h2, h3, h4⟩ := hinv
  exact ⟨h1, h2, h3, h4⟩

theorem emitVarMatch_some_check {v idx : String} (h : emitVarMatch v = some idx) :
    idxCheck idx.data = true := by
  unfold emitVarMatch at h
  split at h
  · dsimp only at h
    split at h
    · cases h
    · split at h
      · split at h
        · rename_i l hck
          cases h
          simpa using hck
        · cases h
      · cases h
  · cases h

theorem emitInv_processVar {bn : String} {st : EmitState} (hbn : GoodStr bn)
    (e : String × ParsedColorValue) (hinv : EmitInv bn st) :
    EmitInv bn (processVar bn st e) := by
  unfold processVar
  split
  · exact hinv
  · rename_i outputIndex hm
    have hidx := emitVarMatch_some_check hm
    exact emitInv_procDark hbn hidx e.1 e.2.dark
      (emitInv_procLight hbn hidx e.1 e.2.light (emitInv_pushTheme _ hinv))

theorem emitInv_emitStep {bn : String} {st : EmitState} (hbn : GoodStr bn)
    (tbl : List (String × ParsedColorValue)) (v : String) (hinv : EmitInv bn st) :
    EmitInv bn (emitStep bn tbl st v) := by
  unfold emitStep
  split
  · exact emitInv_processVar hbn _ hinv
  · exact hinv

theorem emitInv_foldl {bn : String} (hbn : GoodStr bn)
    (tbl : List (String × ParsedColorValue)) (vs : List String) {st : EmitState}
    (hinv : EmitInv bn st) : EmitInv bn (vs.foldl (emitStep bn tbl) st) := by
  induction vs generalizing st with
  | nil => exact hinv
  | cons v t ih => exact ih (emitInv_emitStep hbn tbl v hinv)

theorem emitInv_emitLoop {bn : String} (hbn : GoodStr bn)
    (tbl : List (String × ParsedColorValue)) : EmitInv bn (emitLoop bn tbl) :=
  emitInv_foldl hbn tbl _ (emitInv_empty bn)

end Radix

namespace Radix

theorem combinedLookup_mem {α : Type} {tbl : List (String × α)} {v : String} {pv : α}
    (h : combinedLookup tbl v = some pv) : v ∈ tbl.map Prod.fst ∧ (v, pv) ∈ tbl := by
  unfold combinedLookup at h
  cases hf : tbl.find? (fun e => e.1 = v) with
  | none => rw [hf] at h; cases h
  | some e =>
    rw [hf] at h
    have hsnd : e.2 = pv := by simpa using h
    have hmem : e ∈ tbl := List.mem_of_find?_eq_some hf
    have hkey : e.1 = v := by simpa using List.find?_some hf
    constructor
    · exact List.mem_map.mpr ⟨e, hmem, hkey⟩
    · have : (v, pv) = e := by
        cases e
        simp_all
      rw [this]
      exact hmem

/-- Splitting the construction loop at any name present in the table:
some intermediate state satisfying the invariant is extended by
processing that name, and the final state extends the result. -/
theorem emitLoop_split {bn : String} {tbl : List (String × ParsedColorValue)} {v : String}
    {pv : ParsedColorValue} (hbn : GoodStr bn) (h : combinedLookup tbl v = some pv) :
    ∃ st1, EmitInv bn st1 ∧ EmitLe (processVar bn st1 (v, pv)) (emitLoop bn tbl) := by
  have hvmem : v ∈ jsSortStable sortVarNames (tbl.map Prod.fst) :=
    mem_jsSortStable.mpr (combinedLookup_mem h).1
  rcases List.append_of_mem hvmem with ⟨s1, s2, hsplit⟩
  refine ⟨s1.foldl (emitStep bn tbl) emptyEmitState,
    emitInv_foldl hbn tbl s1 (emitInv_empty bn), ?_⟩
  unfold emitLoop
  rw [hsplit, List.foldl_append, List.foldl_cons]
  have hstep : emitStep bn tbl (s1.foldl (emitStep bn tbl) emptyEmitState) v =
      processVar bn (s1.foldl (emitStep bn tbl) emptyEmitState) (v, pv) := by
    unfold emitStep
    rw [h]
  rw [hstep]
  exact emitLe_foldl bn tbl s2 _

end Radix

namespace Radix

/-! ## From line-list membership to containment in the emitted document -/

theorem head_strAppend {a b : String} {c : Char} (h : a.data.head? = some c) :
    (a ++ b).data.head? = some c := by
  rw [String.data_append]
  cases ha : a.data with
  | nil => rw [ha] at h; cases h
  | cons d t => rw [ha] at h; simpa using h

theorem mem_lightBlock {bn l : String} {st : EmitState} (hl : l ∈ st.light) :
    strContains (lightBlockOf bn st) l := by
  unfold lightBlockOf
  rw [if_pos (List.length_pos.mpr (List.ne_nil_of_mem hl))]
  apply strContains_append_left
  apply strContains_append_right
  exact joinSep_infix "\n" hl

theorem mem_interBlock {l : String} {st : EmitState} (hl : l ∈ st.inter) :
    strContains (interBlockOf st) l := by
  unfold interBlockOf
  rw [if_pos (List.length_pos.mpr (List.ne_nil_of_mem hl))]
  apply strContains_append_left
  apply strContains_append_right
  exact joinSep_infix "\n" (mem_jsSortStable.mpr hl)

theorem mem_darkBlock {l : String} {st : EmitState} (hl : l ∈ st.dark) :
    strContains (darkBlockOf st) l := by
  unfold darkBlockOf
  rw [if_pos (List.length_pos.mpr (List.ne_nil_of_mem hl))]
  apply strContains_append_left
  apply strContains_append_right
  exact joinSep_infix "\n" hl

theorem mem_themeBlock {l : String} {st : EmitState} (hl : l ∈ st.theme) :
    strContains (themeBlockOf st) l := by
  unfold themeBlockOf
  rw [if_pos (List.length_pos.mpr (List.ne_nil_of_mem hl))]
  apply strContains_append_left
  apply strContains_append_right
  exact joinSep_infix "\n" hl

theorem headerComment_head : headerComment.data.head? = some '/' := rfl

/-- Containment in any of the five blocks yields containment in the
assembled document, provided the pattern ends in a non-space
character. -/
theorem strContains_assembleCss {bn x : String} {st : EmitState}
    (h : strContains (lightBlockOf bn st) x ∨ strContains (interBlockOf st) x ∨
        strContains (darkBlockOf st) x ∨ strContains (themeBlockOf st) x ∨
        strContains (p3SectionOf bn st) x)
    (hx : ∃ c, x.data.getLast? = some c ∧ jsIsSpace c = false) :
    strContains (assembleCss bn st) x := by
  unfold assembleCss
  apply strContains_trim _ _ hx
  · rcases h with h | h | h | h | h
    · exact strContains_append_left _ (strContains_append_left _ (strContains_append_left _
        (strContains_append_left _ (strContains_append_right _ h))))
    · exact strContains_append_left _ (strContains_append_left _ (strContains_append_left _
        (strContains_append_right _ h)))
    · exact strContains_append_left _ (strContains_append_left _ (strContains_append_right _ h))
    · exact strContains_append_left _ (strContains_append_right _ h)
    · exact strContains_append_right _ h
  · exact ⟨'/', head_strAppend (head_strAppend (head_strAppend (head_strAppend
      (head_strAppend (head_strAppend headerComment_head))))), by decide⟩

end Radix

namespace Radix

/-! ## Membership facts for the lines a processed record produces -/

theorem procLightP3_fields (bn idx pv : String) (st : EmitState) :
    (procLightP3 bn idx pv st).light = st.light ∧ (procLightP3 bn idx pv st).inter = st.inter ∧
    (procLightP3 bn idx pv st).theme = st.theme ∧ (procLightP3 bn idx pv st).dark = st.dark := by
  unfold procLightP3
  split <;> exact ⟨rfl, rfl, rfl, rfl⟩

theorem procDarkP3_fields (bn idx pv : String) (st : EmitState) :
    (procDarkP3 bn idx pv st).light = st.light ∧ (procDarkP3 bn idx pv st).inter = st.inter ∧
    (procDarkP3 bn idx pv st).theme = st.theme ∧ (procDarkP3 bn idx pv st).dark = st.dark := by
  unfold procDarkP3
  split <;> exact ⟨rfl, rfl, rfl, rfl⟩

theorem procLightSrgb_mem {bn idx : String} {st : EmitState} (hbn : GoodStr bn)
    (hidx : idxCheck idx.data = true) (hinv : EmitInv bn st) (vn lv fv : String)
    (hconv : convertFallback lv = ConvOutcome.success fv) :
    defLineOf bn idx fv ∈ (procLightSrgb bn idx vn lv st).light ∧
    interLineOf bn idx ∈ (procLightSrgb bn idx vn lv st).inter := by
  unfold procLightSrgb
  rw [hconv]
  dsimp only
  split
  · rename_i hg
    refine ⟨List.mem_append_right _ (by simp), ?_⟩
    have hg' : st.inter.any (interHeadP bn idx) = true := by
      rw [← interGuardHit_eq]; exact hg
    rcases List.any_eq_true.mp hg' with ⟨l, hl, hp⟩
    rcases hinv.1 l hl with ⟨i, hic, hle, -⟩
    subst hle
    have hi : i = idx := (interHeadP_interLine_iff hbn hidx hic).mp (by simpa using hp)
    subst hi
    exact hl
  · exact ⟨List.mem_append_right _ (by simp), List.mem_append_right _ (by simp)⟩

theorem procDarkSrgb_mem {bn idx : String} {st : EmitState} (hbn : GoodStr bn)
    (hidx : idxCheck idx.data = true) (hinv : EmitInv bn st) (vn dv fv : String)
    (hconv : convertFallback dv = ConvOutcome.success fv) :
    defLineOf bn idx fv ∈ (procDarkSrgb bn idx vn dv st).dark ∧
    interLineOf bn idx ∈ (procDarkSrgb bn idx vn dv st).inter := by
  unfold procDarkSrgb
  rw [hconv]
  dsimp only
  split
  · rename_i hg
    refine ⟨List.mem_append_right _ (by simp), ?_⟩
    have hg' : st.inter.any (interHeadP bn idx) = true := by
      rw [← interGuardHit_eq]; exact hg
    rcases List.any_eq_true.mp hg' with ⟨l, hl, hp⟩
    rcases hinv.1 l hl with ⟨i, hic, hle, -⟩
    subst hle
    have hi : i = idx := (interHeadP_interLine_iff hbn hidx hic).mp (by simpa using hp)
    subst hi
    exact hl
  · exact ⟨List.mem_append_right _ (by simp), List.mem_append_right _ (by simp)⟩

theorem procLight_mem {bn idx : String} {st : EmitState} (hbn : GoodStr bn)
    (hidx : idxCheck idx.data = true) (hinv : EmitInv bn st) (vn lv fv : String)
    {cd : ColorDefinition} (hsrgb : cd.srgb = some lv) (hne : lv.isEmpty = false)
    (hconv : convertFallback lv = ConvOutcome.success fv) :
    defLineOf bn idx fv ∈ (procLight bn idx vn cd st).light ∧
    interLineOf bn idx ∈ (procLight bn idx vn cd st).inter := by
  obtain ⟨s, p⟩ := cd
  cases hsrgb
  unfold procLight
  dsimp only
  rw [if_neg (by simp [hne])]
  cases p with
  | none => exact procLightSrgb_mem hbn hidx hinv vn lv fv hconv
  | some pvv =>
    dsimp only
    split
    · exact procLightSrgb_mem hbn hidx hinv vn lv fv hconv
    · have hh := procLightSrgb_mem hbn hidx hinv vn lv fv hconv
      rcases procLightP3_fields bn idx pvv (procLightSrgb bn idx vn lv st) with ⟨hL, hI, -, -⟩
      rw [hL, hI]
      exact hh

theorem procDark_mem {bn idx : String} {st : EmitState} (hbn : GoodStr bn)
    (hidx : idxCheck idx.data = true) (hinv : EmitInv bn st) (vn dv fv : String)
    {cd : ColorDefinition} (hsrgb : cd.srgb = some dv) (hne : dv.isEmpty = false)
    (hconv : convertFallback dv = ConvOutcome.success fv) :
    defLineOf bn idx fv ∈ (procDark bn idx vn cd st).dark ∧
    interLineOf bn idx ∈ (procDark bn idx vn cd st).inter := by
  obtain ⟨s, p⟩ := cd
  cases hsrgb
  unfold procDark
  dsimp only
  rw [if_neg (by simp [hne])]
  cases p with
  | none => exact procDarkSrgb_mem hbn hidx hinv vn dv fv hconv
  | some pvv =>
    dsimp only
    split
    · exact procDarkSrgb_mem hbn hidx hinv vn dv fv hconv
    · have hh := procDarkSrgb_mem hbn hidx hinv vn dv fv hconv
      rcases procDarkP3_fields bn idx pvv (procDarkSrgb bn idx vn dv st) with ⟨-, hI, -, hD⟩
      rw [hD, hI]
      exact hh

theorem processVar_mem {bn : String} {st : EmitState} (hbn : GoodStr bn)
    {v idx : String} {pv : ParsedColorValue} (hm : emitVarMatch v = some idx)
    (hinv : EmitInv bn st) :
    themeLineOf bn idx ∈ (processVar bn st (v, pv)).theme ∧
    (∀ lv fv, pv.light.srgb = some lv → lv.isEmpty = false →
      convertFallback lv = ConvOutcome.success fv →
      defLineOf bn idx fv ∈ (processVar bn st (v, pv)).light ∧
      interLineOf bn idx ∈ (processVar bn st (v, pv)).inter) ∧
    (∀ dv fv, pv.dark.srgb = some dv → dv.isEmpty = false →
      convertFallback dv = ConvOutcome.success fv →
      defLineOf bn idx fv ∈ (processVar bn st (v, pv)).dark ∧
      interLineOf bn idx ∈ (processVar bn st (v, pv)).inter) := by
  have hidx := emitVarMatch_some_check hm
  unfold processVar
  rw [hm]
  dsimp only
  set st1 : EmitState := { st with theme := st.theme ++ [themeLineOf bn idx] } with hst1
  have hinv1 : EmitInv bn st1 := emitInv_pushTheme _ hinv
  have hinv2 : EmitInv bn (procLight bn idx v pv.light st1) :=
    emitInv_procLight hbn hidx v pv.light hinv1
  have hleL := emitLe_procLight bn idx v pv.light st1
  have hleD := emitLe_procDark bn idx v pv.dark (procLight bn idx v pv.light st1)
  refine ⟨?_, ?_, ?_⟩
  · exact hleD.theme.mem (hleL.theme.mem (List.mem_append_right _ (by simp)))
  · intro lv fv hsrgb hne hconv
    have hh := procLight_mem hbn hidx hinv1 v lv fv hsrgb hne hconv
    exact ⟨hleD.light.mem hh.1, hleD.inter.mem hh.2⟩
  · intro dv fv hsrgb hne hconv
    exact procDark_mem hbn hidx hinv2 v dv fv hsrgb hne hconv

end Radix

namespace Radix

set_option maxRecDepth 100000 in
/-- C1: for every merged family table containing `--red-9` with light
fallback `#FF0000` and dark fallback `#880000`, the emitted `red` file
contains the light base line `--radix-rgb-red-9: 0.628 0.258 29.234;`,
the dark base line with the converted value of `#880000`
(`0.394 0.162 29.234`), the intermediate line
`--radix-intermediate-red-9: oklch(var(--radix-rgb-red-9));`, and the
theme line `--color-red-9: var(--radix-intermediate-red-9);`, each
produced in its own block list. -/
theorem claim_C1 (tbl : List (String × ParsedColorValue)) (pv : ParsedColorValue)
    (h : combinedLookup tbl "--red-9" = some pv)
    (hlight : pv.light.srgb = some "#FF0000")
    (hdark : pv.dark.srgb = some "#880000") :
    "  --radix-rgb-red-9: 0.628 0.258 29.234;" ∈ (emitLoop "red" tbl).light ∧
    "  --radix-rgb-red-9: 0.394 0.162 29.234;" ∈ (emitLoop "red" tbl).dark ∧
    "  --radix-intermediate-red-9: oklch(var(--radix-rgb-red-9));" ∈ (emitLoop "red" tbl).inter ∧
    "  --color-red-9: var(--radix-intermediate-red-9);" ∈ (emitLoop "red" tbl).theme ∧
    strContains (constructCss "red" tbl) "  --radix-rgb-red-9: 0.628 0.258 29.234;" ∧
    strContains (constructCss "red" tbl) "  --radix-rgb-red-9: 0.394 0.162 29.234;" ∧
    strContains (constructCss "red" tbl)
      "  --radix-intermediate-red-9: oklch(var(--radix-rgb-red-9));" ∧
    strContains (constructCss "red" tbl) "  --color-red-9: var(--radix-intermediate-red-9);" := by
  have hbn : GoodStr "red" := by decide
  rcases emitLoop_split hbn h with ⟨st1, hinv, hle⟩
  have hm : emitVarMatch "--red-9" = some "9" := rfl
  rcases @processVar_mem "red" st1 hbn "--red-9" "9" pv hm hinv with ⟨hth, hlightF, hdarkF⟩
  have hconvL : convertFallback "#FF0000" = ConvOutcome.success "0.628 0.258 29.234" := rfl
  have hconvD : convertFallback "#880000" = ConvOutcome.success "0.394 0.162 29.234" := rfl
  rcases hlightF "#FF0000" "0.628 0.258 29.234" hlight rfl hconvL with ⟨hL, hI⟩
  rcases hdarkF "#880000" "0.394 0.162 29.234" hdark rfl hconvD with ⟨hD, -⟩
  have e1 : ("  --radix-rgb-red-9: 0.628 0.258 29.234;" : String) =
      defLineOf "red" "9" "0.628 0.258 29.234" := rfl
  have e2 : ("  --radix-rgb-red-9: 0.394 0.162 29.234;" : String) =
      defLineOf "red" "9" "0.394 0.162 29.234" := rfl
  have e3 : ("  --radix-intermediate-red-9: oklch(var(--radix-rgb-red-9));" : String) =
      interLineOf "red" "9" := rfl
  have e4 : ("  --color-red-9: var(--radix-intermediate-red-9);" : String) =
      themeLineOf "red" "9" := rfl
  have hLm := hle.light.mem hL
  have hDm := hle.dark.mem hD
  have hIm := hle.inter.mem hI
  have hTm := hle.theme.mem hth
  rw [e1, e2, e3, e4]
  refine ⟨hLm, hDm, hIm, hTm, ?_, ?_, ?_, ?_⟩
  · exact strContains_assembleCss (Or.inl (mem_lightBlock (e1 ▸ hLm)))
      ⟨';', by decide, by decide⟩
  · exact strContains_assembleCss (Or.inr (Or.inr (Or.inl (mem_darkBlock (e2 ▸ hDm)))))
      ⟨';', by decide, by decide⟩
  · exact strContains_assembleCss (Or.inr (Or.inl (mem_interBlock (e3 ▸ hIm))))
      ⟨';', by decide, by decide⟩
  · exact strContains_assembleCss (Or.inr (Or.inr (Or.inr (Or.inl (mem_themeBlock (e4 ▸ hTm))))))
      ⟨';', by decide, by decide⟩

/-- Closed instance of C1 on the single-record table for `--red-9`. -/
theorem claim_C1_witness :
    "  --radix-rgb-red-9: 0.628 0.258 29.234;" ∈
      (emitLoop "red" [("--red-9",
        ⟨⟨some "#FF0000", none⟩, ⟨some "#880000", none⟩⟩)]).light ∧
    "  --radix-rgb-red-9: 0.394 0.162 29.234;" ∈
      (emitLoop "red" [("--red-9",
        ⟨⟨some "#FF0000", none⟩, ⟨some "#880000", none⟩⟩)]).dark ∧
    "  --radix-intermediate-red-9: oklch(var(--radix-rgb-red-9));" ∈
      (emitLoop "red" [("--red-9",
        ⟨⟨some "#FF0000", none⟩, ⟨some "#880000", none⟩⟩)]).inter ∧
    "  --color-red-9: var(--radix-intermediate-red-9);" ∈
      (emitLoop "red" [("--red-9",
        ⟨⟨some "#FF0000", none⟩, ⟨some "#880000", none⟩⟩)]).theme ∧
    strContains (constructCss "red" [("--red-9",
        ⟨⟨some "#FF0000", none⟩, ⟨some "#880000", none⟩⟩)])
      "  --radix-rgb-red-9: 0.628 0.258 29.234;" ∧
    strContains (constructCss "red" [("--red-9",
        ⟨⟨some "#FF0000", none⟩, ⟨some "#880000", none⟩⟩)])
      "  --radix-rgb-red-9: 0.394 0.162 29.234;" ∧
    strContains (constructCss "red" [("--red-9",
        ⟨⟨some "#FF0000", none⟩, ⟨some "#880000", none⟩⟩)])
      "  --radix-intermediate-red-9: oklch(var(--radix-rgb-red-9));" ∧
    strContains (constructCss "red" [("--red-9",
        ⟨⟨some "#FF0000", none⟩, ⟨some "#880000", none⟩⟩)])
      "  --color-red-9: var(--radix-intermediate-red-9);" :=
  claim_C1 _ _ rfl rfl rfl

end Radix

namespace Radix

/-- C2 counterexample: a record whose only value is the invalid light
literal `#F00` still gets its theme-alias line, while the intermediate
and base lists stay empty, so the emitted theme alias references an
intermediate variable that is defined nowhere in the file. -/
theorem claim_C2_counterexample :
    (emitLoop "red" [("--red-9", ⟨⟨some "#F00", none⟩, ⟨none, none⟩⟩)]).theme =
      [themeLineOf "red" "9"] ∧
    (emitLoop "red" [("--red-9", ⟨⟨some "#F00", none⟩, ⟨none, none⟩⟩)]).inter = [] ∧
    (emitLoop "red" [("--red-9", ⟨⟨some "#F00", none⟩, ⟨none, none⟩⟩)]).light = [] := by
  exact ⟨rfl, rfl, rfl⟩

/-- C2 (amended): a theme-alias line is emitted for every record whose
name matches the index pattern, and every intermediate variable that is
defined is defined exactly once and is backed by at least one base
variable definition in the light or dark list; however the theme alias
is emitted unconditionally, so it may reference an intermediate
variable that is never defined (see the counterexample). -/
theorem claim_C2 (bn : String) (hbn : GoodStr bn) (tbl : List (String × ParsedColorValue))
    (v : String) (pv : ParsedColorValue) (idx : String)
    (h : combinedLookup tbl v = some pv) (hm : emitVarMatch v = some idx) :
    themeLineOf bn idx ∈ (emitLoop bn tbl).theme ∧
    (∀ l ∈ (emitLoop bn tbl).inter, ∃ i, idxCheck i.data = true ∧ l = interLineOf bn i ∧
      (emitLoop bn tbl).inter.countP (interHeadP bn i) = 1 ∧
      ∃ l', (l' ∈ (emitLoop bn tbl).light ∨ l' ∈ (emitLoop bn tbl).dark) ∧
        strStartsWith l' ("  " ++ rgbVarName bn i ++ ":") = true) := by
  constructor
  · rcases emitLoop_split hbn h with ⟨st1, hinv, hle⟩
    rcases @processVar_mem bn st1 hbn v idx pv hm hinv with ⟨hth, -, -⟩
    exact hle.theme.mem hth
  · intro l hl
    have hinv := emitInv_emitLoop hbn tbl
    rcases hinv.1 l hl with ⟨i, hic, hle', hbase⟩
    refine ⟨i, hic, hle', ?_, hbase⟩
    have hub := hinv.2.2.1 i hic
    have hlb : 0 < (emitLoop bn tbl).inter.countP (interHeadP bn i) := by
      refine List.countP_pos_iff.mpr ⟨l, hl, ?_⟩
      rw [hle']
      exact (interHeadP_interLine_iff hbn hic hic).mpr rfl
    omega

/-- Closed instance of the amended C2 on a well-formed single-record
table. -/
theorem claim_C2_witness :
    themeLineOf "red" "9" ∈
      (emitLoop "red" [("--red-9", ⟨⟨some "#FF0000", none⟩, ⟨none, none⟩⟩)]).theme ∧
    (∀ l ∈ (emitLoop "red" [("--red-9", ⟨⟨some "#FF0000", none⟩, ⟨none, none⟩⟩)]).inter,
      ∃ i, idxCheck i.data = true ∧ l = interLineOf "red" i ∧
      (emitLoop "red" [("--red-9",
        ⟨⟨some "#FF0000", none⟩, ⟨none, none⟩⟩)]).inter.countP (interHeadP "red" i) = 1 ∧
      ∃ l', (l' ∈ (emitLoop "red" [("--red-9", ⟨⟨some "#FF0000", none⟩, ⟨none, none⟩⟩)]).light ∨
          l' ∈ (emitLoop "red" [("--red-9", ⟨⟨some "#FF0000", none⟩, ⟨none, none⟩⟩)]).dark) ∧
        strStartsWith l' ("  " ++ rgbVarName "red" i ++ ":") = true) :=
  claim_C2 "red" (by decide) _ "--red-9" _ "9" rfl rfl

end Radix

namespace Radix

theorem procLightP3_mem {bn idx : String} {st : EmitState} (hbn : GoodStr bn)
    (hidx : idxCheck idx.data = true) (hinv : EmitInv bn st) (pvv : String) :
    defLineOf bn idx pvv ∈ (procLightP3 bn idx pvv st).p3L ∧
    p3InterLineOf bn idx ∈ (procLightP3 bn idx pvv st).p3I := by
  unfold procLightP3
  split
  · rename_i hg
    refine ⟨List.mem_append_right _ (by simp), ?_⟩
    have hg' : st.p3I.any (interHeadP bn idx) = true := by
      rw [← interGuardHit_eq]; exact hg
    rcases List.any_eq_true.mp hg' with ⟨l, hl, hp⟩
    rcases hinv.2.1 l hl with ⟨i, hic, hle⟩
    subst hle
    have hi : i = idx := (interHeadP_p3InterLine_iff hbn hidx hic).mp (by simpa using hp)
    subst hi
    exact hl
  · exact ⟨List.mem_append_right _ (by simp), List.mem_append_right _ (by simp)⟩

theorem procDarkP3_mem {bn idx : String} {st : EmitState} (hbn : GoodStr bn)
    (hidx : idxCheck idx.data = true) (hinv : EmitInv bn st) (pvv : String) :
    defLineOf bn idx pvv ∈ (procDarkP3 bn idx pvv st).p3D ∧
    p3InterLineOf bn idx ∈ (procDarkP3 bn idx pvv st).p3I := by
  unfold procDarkP3
  split
  · rename_i hg
    refine ⟨List.mem_append_right _ (by simp), ?_⟩
    have hg' : st.p3I.any (interHeadP bn idx) = true := by
      rw [← interGuardHit_eq]; exact hg
    rcases List.any_eq_true.mp hg' with ⟨l, hl, hp⟩
    rcases hinv.2.1 l hl with ⟨i, hic, hle⟩
    subst hle
    have hi : i = idx := (interHeadP_p3InterLine_iff hbn hidx hic).mp (by simpa using hp)
    subst hi
    exact hl
  · exact ⟨List.mem_append_right _ (by simp), List.mem_append_right _ (by simp)⟩

theorem procLight_p3_mem {bn idx : String} {st : EmitState} (hbn : GoodStr bn)
    (hidx : idxCheck idx.data = true) (hinv : EmitInv bn st) (vn lv pvv : String)
    {cd : ColorDefinition} (hsrgb : cd.srgb = some lv) (hne : lv.isEmpty = false)
    (hp3 : cd.p3 = some pvv) (hpne : pvv.isEmpty = false) :
    defLineOf bn idx pvv ∈ (procLight bn idx vn cd st).p3L ∧
    p3InterLineOf bn idx ∈ (procLight bn idx vn cd st).p3I := by
  obtain ⟨s, p⟩ := cd
  cases hsrgb
  cases hp3
  unfold procLight
  dsimp only
  rw [if_neg (by simp [hne])]
  rw [if_neg (by simp [hpne])]
  exact procLightP3_mem hbn hidx (emitInv_procLightSrgb hbn hidx vn lv hinv) pvv

theorem procDark_p3_mem {bn idx : String} {st : EmitState} (hbn : GoodStr bn)
    (hidx : idxCheck idx.data = true) (hinv : EmitInv bn st) (vn dv pvv : String)
    {cd : ColorDefinition} (hsrgb : cd.srgb = some dv) (hne : dv.isEmpty = false)
    (hp3 : cd.p3 = some pvv) (hpne : pvv.isEmpty = false) :
    defLineOf bn idx pvv ∈ (procDark bn idx vn cd st).p3D ∧
    p3InterLineOf bn idx ∈ (procDark bn idx vn cd st).p3I := by
  obtain ⟨s, p⟩ := cd
  cases hsrgb
  cases hp3
  unfold procDark
  dsimp only
  rw [if_neg (by simp [hne])]
  rw [if_neg (by simp [hpne])]
  exact procDarkP3_mem hbn hidx (emitInv_procDarkSrgb hbn hidx vn dv hinv) pvv

theorem processVar_p3_mem {bn : String} {st : EmitState} (hbn : GoodStr bn)
    {v idx : String} {pv : ParsedColorValue} (hm : emitVarMatch v = some idx)
    (hinv : EmitInv bn st) :
    (∀ lv pvv, pv.light.srgb = some lv → lv.isEmpty = false → pv.light.p3 = some pvv →
      pvv.isEmpty = false →
      defLineOf bn idx pvv ∈ (processVar bn st (v, pv)).p3L ∧
      p3InterLineOf bn idx ∈ (processVar bn st (v, pv)).p3I) ∧
    (∀ dv pvv, pv.dark.srgb = some dv → dv.isEmpty = false → pv.dark.p3 = some pvv →
      pvv.isEmpty = false →
      defLineOf bn idx pvv ∈ (processVar bn st (v, pv)).p3D ∧
      p3InterLineOf bn idx ∈ (processVar bn st (v, pv)).p3I) := by
  have hidx := emitVarMatch_some_check hm
  unfold processVar
  rw [hm]
  dsimp only
  set st1 : EmitState := { st with theme := st.theme ++ [themeLineOf bn idx] } with hst1
  have hinv1 : EmitInv bn st1 := emitInv_pushTheme _ hinv
  have hinv2 : EmitInv bn (procLight bn idx v pv.light st1) :=
    emitInv_procLight hbn hidx v pv.light hinv1
  have hleD := emitLe_procDark bn idx v pv.dark (procLight bn idx v pv.light st1)
  constructor
  · intro lv pvv hsrgb hne hp3 hpne
    have hh := procLight_p3_mem hbn hidx hinv1 v lv pvv hsrgb hne hp3 hpne
    exact ⟨hleD.p3L.mem hh.1, hleD.p3I.mem hh.2⟩
  · intro dv pvv hsrgb hne hp3 hpne
    exact procDark_p3_mem hbn hidx hinv2 v dv pvv hsrgb hne hp3 hpne

theorem p3SectionOf_ne_empty {bn : String} {st : EmitState}
    (h : st.p3I ≠ [] ∨ st.p3L ≠ [] ∨ st.p3D ≠ []) : p3SectionOf bn st ≠ "" := by
  unfold p3SectionOf
  split
  · dsimp only
    intro hc
    have hd := congrArg String.length hc
    rw [String.length_append] at hd
    have hl1 : ("\x7d\n" : String).length = 2 := rfl
    have hl2 : ("" : String).length = 0 := rfl
    rw [hl1, hl2] at hd
    omega
  · rename_i hcond
    exfalso
    simp only [Bool.or_eq_true, decide_eq_true_eq, not_or, gt_iff_lt, not_lt,
      Nat.le_zero, List.length_eq_zero] at hcond
    rcases h with h | h | h
    · exact h hcond.1.1
    · exact h hcond.1.2
    · exact h hcond.2

theorem p3SectionOf_empty {bn : String} {st : EmitState} (h1 : st.p3I = [])
    (h2 : st.p3L = []) (h3 : st.p3D = []) : p3SectionOf bn st = "" := by
  unfold p3SectionOf
  rw [if_neg (by simp [h1, h2, h3])]

end Radix

namespace Radix

/-- C9 counterexample: a record carrying only a light-gamut literal
(no light fallback literal) produces no raw override line, no
intermediate override line, and no feature-conditional wrapper at all,
because the gamut emission is nested inside the fallback-present
branch. -/
theorem claim_C9_counterexample :
    (emitLoop "red" [("--red-9", ⟨⟨none, some "1 0 0"⟩, ⟨none, none⟩⟩)]).p3L = [] ∧
    (emitLoop "red" [("--red-9", ⟨⟨none, some "1 0 0"⟩, ⟨none, none⟩⟩)]).p3I = [] ∧
    p3SectionOf "red" (emitLoop "red" [("--red-9", ⟨⟨none, some "1 0 0"⟩, ⟨none, none⟩⟩)]) = "" :=
  ⟨rfl, rfl, rfl⟩

/-- C9 (amended): when a record has a non-empty fallback literal AND a
non-empty gamut literal for a mode, the emitter appends the raw
override line with the gamut literal passed through unconverted, plus
the intermediate override line with the direct variable reference; the
feature-conditional wrapper is emitted iff at least one of the three
override lists is non-empty; however a gamut literal without its
mode's fallback literal is silently dropped (see the
counterexample). -/
theorem claim_C9 (bn : String) (hbn : GoodStr bn) (tbl : List (String × ParsedColorValue))
    (v : String) (pv : ParsedColorValue) (idx : String)
    (h : combinedLookup tbl v = some pv) (hm : emitVarMatch v = some idx) :
    (∀ lv pvv, pv.light.srgb = some lv → lv.isEmpty = false → pv.light.p3 = some pvv →
      pvv.isEmpty = false →
      defLineOf bn idx pvv ∈ (emitLoop bn tbl).p3L ∧
      p3InterLineOf bn idx ∈ (emitLoop bn tbl).p3I) ∧
    (∀ dv pvv, pv.dark.srgb = some dv → dv.isEmpty = false → pv.dark.p3 = some pvv →
      pvv.isEmpty = false →
      defLineOf bn idx pvv ∈ (emitLoop bn tbl).p3D ∧
      p3InterLineOf bn idx ∈ (emitLoop bn tbl).p3I) ∧
    (p3SectionOf bn (emitLoop bn tbl) = "" ↔
      (emitLoop bn tbl).p3I = [] ∧ (emitLoop bn tbl).p3L = [] ∧ (emitLoop bn tbl).p3D = []) := by
  rcases emitLoop_split hbn h with ⟨st1, hinv, hle⟩
  rcases @processVar_p3_mem bn st1 hbn v idx pv hm hinv with ⟨hlight, hdark⟩
  refine ⟨?_, ?_, ?_⟩
  · intro lv pvv hsrgb hne hp3 hpne
    rcases hlight lv pvv hsrgb hne hp3 hpne with ⟨h1, h2⟩
    exact ⟨hle.p3L.mem h1, hle.p3I.mem h2⟩
  · intro dv pvv hsrgb hne hp3 hpne
    rcases hdark dv pvv hsrgb hne hp3 hpne with ⟨h1, h2⟩
    exact ⟨hle.p3D.mem h1, hle.p3I.mem h2⟩
  · constructor
    · intro hempty
      by_contra hc
      push_neg at hc
      have hne : (emitLoop bn tbl).p3I ≠ [] ∨ (emitLoop bn tbl).p3L ≠ [] ∨
          (emitLoop bn tbl).p3D ≠ [] := by
        by_cases hI : (emitLoop bn tbl).p3I = []
        · by_cases hL : (emitLoop bn tbl).p3L = []
          · exact Or.inr (Or.inr (hc hI hL))
          · exact Or.inr (Or.inl hL)
        · exact Or.inl hI
      exact p3SectionOf_ne_empty hne hempty
    · rintro ⟨h1, h2, h3⟩
      exact p3SectionOf_empty h1 h2 h3

/-- Closed instance of the amended C9 on a record with both fallback
and gamut literals. -/
theorem claim_C9_witness :
    (∀ lv pvv,
      (⟨⟨some "#FF0000", some "1 0 0"⟩, ⟨none, none⟩⟩ : ParsedColorValue).light.srgb = some lv →
      lv.isEmpty = false →
      (⟨⟨some "#FF0000", some "1 0 0"⟩, ⟨none, none⟩⟩ : ParsedColorValue).light.p3 = some pvv →
      pvv.isEmpty = false →
      defLineOf "red" "9" pvv ∈ (emitLoop "red" [("--red-9",
        ⟨⟨some "#FF0000", some "1 0 0"⟩, ⟨none, none⟩⟩)]).p3L ∧
      p3InterLineOf "red" "9" ∈ (emitLoop "red" [("--red-9",
        ⟨⟨some "#FF0000", some "1 0 0"⟩, ⟨none, none⟩⟩)]).p3I) ∧
    (∀ dv pvv,
      (⟨⟨some "#FF0000", some "1 0 0"⟩, ⟨none, none⟩⟩ : ParsedColorValue).dark.srgb = some dv →
      dv.isEmpty = false →
      (⟨⟨some "#FF0000", some "1 0 0"⟩, ⟨none, none⟩⟩ : ParsedColorValue).dark.p3 = some pvv →
      pvv.isEmpty = false →
      defLineOf "red" "9" pvv ∈ (emitLoop "red" [("--red-9",
        ⟨⟨some "#FF0000", some "1 0 0"⟩, ⟨none, none⟩⟩)]).p3D ∧
      p3InterLineOf "red" "9" ∈ (emitLoop "red" [("--red-9",
        ⟨⟨some "#FF0000", some "1 0 0"⟩, ⟨none, none⟩⟩)]).p3I) ∧
    (p3SectionOf "red" (emitLoop "red" [("--red-9",
        ⟨⟨some "#FF0000", some "1 0 0"⟩, ⟨none, none⟩⟩)]) = "" ↔
      (emitLoop "red" [("--red-9", ⟨⟨some "#FF0000", some "1 0 0"⟩, ⟨none, none⟩⟩)]).p3I = [] ∧
      (emitLoop "red" [("--red-9", ⟨⟨some "#FF0000", some "1 0 0"⟩, ⟨none, none⟩⟩)]).p3L = [] ∧
      (emitLoop "red" [("--red-9", ⟨⟨some "#FF0000", some "1 0 0"⟩, ⟨none, none⟩⟩)]).p3D = []) :=
  claim_C9 "red" (by decide) _ "--red-9" _ "9" rfl rfl

end Radix

namespace Radix

/-- C3 counterexample: a single-line `:root \x7b` opener double-counts
its own brace (reset to 1, then +1), so after the matching `\x7d` the
scanner is still in the light scope at depth 1 and the declaration
`--red-2` outside the block is recorded. -/
theorem claim_C3_counterexample :
    trackLevel ":root \x7b" Scope.light 1 = 2 ∧
    ((jsSplit '\n' ":root \x7b\n  --red-1: #FF0000;\n\x7d").foldl
      (scanLineScripts "red") ⟨Scope.unknown, 0, []⟩).scope = Scope.light ∧
    ((jsSplit '\n' ":root \x7b\n  --red-1: #FF0000;\n\x7d").foldl
      (scanLineScripts "red") ⟨Scope.unknown, 0, []⟩).level = 1 ∧
    scanFileScripts "red" [] ":root \x7b\n  --red-1: #FF0000;\n\x7d\n  --red-2: #00FF00;" =
      [("--red-1", ⟨some "#FF0000", none⟩), ("--red-2", ⟨some "#00FF00", none⟩)] :=
  ⟨rfl, rfl, rfl, rfl⟩

/-- C3 (amended): a scope-opening line that carries a block-open marker
resets the depth to 1 and then counts the line's braces again, leaving
`1 + braceDelta` (clamped to at least 1 for the single-line
selector-brace shapes), hence at least 1 whenever the line's net brace
count is non-negative; a non-opener, non-clamped line in a known scope
changes the depth by exactly the line's net brace count; when the depth
reaches zero or below in a known scope the per-line step resets the
state to `unknown` at depth 0 and records nothing on that line; and
while the scope is unknown nothing is recorded.  Because of the
double count, the depth after a `:root \x7b` opener is 2, so the
matching close leaves depth 1 and later declarations are still
recorded (see the counterexample), contrary to the claim's last
part. -/
theorem claim_C3 :
    (∀ t : String, ∀ sc : Scope, ∀ lv : Int,
      (isLightStartLine t || isDarkStartLine t) = true → strIncludes t "\x7b" = true →
      0 ≤ braceDelta t →
      1 ≤ trackLevel t (detectScopeScripts t sc lv).1 (detectScopeScripts t sc lv).2 ∧
      trackLevel t (detectScopeScripts t sc lv).1 (detectScopeScripts t sc lv).2 =
        (if isEdgeBraceLine t = true then max 1 (1 + braceDelta t) else 1 + braceDelta t)) ∧
    (∀ t : String, ∀ sc : Scope, ∀ lv : Int,
      isLightStartLine t = false → isDarkStartLine t = false → isMediaDarkLine t = false →
      isEdgeBraceLine t = false → (sc = Scope.light ∨ sc = Scope.dark) →
      detectScopeScripts t sc lv = (sc, lv) ∧ trackLevel t sc lv = lv + braceDelta t) ∧
    (∀ es : String, ∀ st : ScanStS, ∀ line : String,
      ((detectScopeScripts (jsTrim line) st.scope st.level).1 = Scope.light ∨
        (detectScopeScripts (jsTrim line) st.scope st.level).1 = Scope.dark) →
      trackLevel (jsTrim line) (detectScopeScripts (jsTrim line) st.scope st.level).1
        (detectScopeScripts (jsTrim line) st.scope st.level).2 ≤ 0 →
      (scanLineScripts es st line).scope = Scope.unknown ∧
      (scanLineScripts es st line).level = 0 ∧
      (scanLineScripts es st line).tbl = st.tbl) ∧
    (∀ es : String, ∀ st : ScanStS, ∀ line : String,
      (detectScopeScripts (jsTrim line) st.scope st.level).1 = Scope.unknown →
      (scanLineScripts es st line).scope = Scope.unknown ∧
      (scanLineScripts es st line).tbl = st.tbl) := by
  refine ⟨?_, ?_, ?_, ?_⟩
  · intro t sc lv h1 h2 h3
    have hd : (detectScopeScripts t sc lv).1 = Scope.light ∨
        (detectScopeScripts t sc lv).1 = Scope.dark := by
      unfold detectScopeScripts
      rcases Bool.or_eq_true _ _ |>.mp h1 with hl | hdk
      · rw [if_pos hl]; exact Or.inl rfl
      · by_cases hl : isLightStartLine t = true
        · rw [if_pos hl]; exact Or.inl rfl
        · rw [if_neg (by simp [hl]), if_pos hdk]; exact Or.inr rfl
    have hlv : (detectScopeScripts t sc lv).2 = 1 := by
      unfold detectScopeScripts
      rcases Bool.or_eq_true _ _ |>.mp h1 with hl | hdk
      · rw [if_pos hl]; simp [h2]
      · by_cases hl : isLightStartLine t = true
        · rw [if_pos hl]; simp [h2]
        · rw [if_neg (by simp [hl]), if_pos hdk]; simp [h2]
    have htr : trackLevel t (detectScopeScripts t sc lv).1 (detectScopeScripts t sc lv).2 =
        (if isEdgeBraceLine t = true then max 1 (1 + braceDelta t) else 1 + braceDelta t) := by
      unfold trackLevel
      rw [hlv]
      rw [if_pos (by rcases hd with h | h <;> simp [h])]
    refine ⟨?_, htr⟩
    rw [htr]
    by_cases he : isEdgeBraceLine t = true
    · rw [if_pos he]; exact le_max_left 1 _
    · rw [if_neg he]; omega
  · intro t sc lv h1 h2 h3 h4 hsc
    constructor
    · unfold detectScopeScripts
      rw [if_neg (by simp [h1]), if_neg (by simp [h2]), if_neg (by simp [h3])]
    · unfold trackLevel
      rw [if_pos (by rcases hsc with h | h <;> simp [h]), if_neg (by simp [h4])]
  · intro es st line h1 h2
    unfold scanLineScripts
    dsimp only
    split
    · refine ⟨rfl, rfl, ?_⟩
      rw [if_neg ?_]
      intro hcontra
      simp only [Bool.and_eq_true, decide_eq_true_eq] at hcontra
      omega
    · rename_i hcond
      exfalso
      apply hcond
      simp only [Bool.and_eq_true, decide_eq_true_eq]
      constructor
      · rcases h1 with h | h <;> simp [h]
      · exact h2
  · intro es st line h1
    unfold scanLineScripts
    dsimp only
    split
    · rename_i hcond
      exfalso
      simp only [Bool.and_eq_true, Bool.or_eq_true, decide_eq_true_eq] at hcond
      rcases hcond.1 with h | h <;> rw [h1] at h <;> cases h
    · refine ⟨h1, ?_⟩
      rw [if_neg ?_]
      intro hcontra
      simp only [Bool.and_eq_true, Bool.or_eq_true, decide_eq_true_eq] at hcontra
      rcases hcontra.1.1 with h | h <;> rw [h1] at h <;> cases h

/-- Closed instance of the amended C3: the opener `:root \x7b` leaves
depth 2; an interior declaration line changes depth by 0; the line
`\x7d` at depth 1 in light scope resets to unknown/0 with nothing
recorded. -/
theorem claim_C3_witness :
    (1 ≤ trackLevel ":root \x7b" (detectScopeScripts ":root \x7b" Scope.unknown 0).1
        (detectScopeScripts ":root \x7b" Scope.unknown 0).2 ∧
      trackLevel ":root \x7b" (detectScopeScripts ":root \x7b" Scope.unknown 0).1
        (detectScopeScripts ":root \x7b" Scope.unknown 0).2 =
        (if isEdgeBraceLine ":root \x7b" = true then max 1 (1 + braceDelta ":root \x7b")
          else 1 + braceDelta ":root \x7b")) ∧
    (detectScopeScripts "  --red-1: #FF0000;" Scope.light 2 = (Scope.light, 2) ∧
      trackLevel "  --red-1: #FF0000;" Scope.light 2 = 2 + braceDelta "  --red-1: #FF0000;") ∧
    ((scanLineScripts "red" ⟨Scope.light, 1, []⟩ "\x7d").scope = Scope.unknown ∧
      (scanLineScripts "red" ⟨Scope.light, 1, []⟩ "\x7d").level = 0 ∧
      (scanLineScripts "red" ⟨Scope.light, 1, []⟩ "\x7d").tbl = []) ∧
    ((scanLineScripts "red" ⟨Scope.unknown, 0, []⟩ "  --red-1: #FF0000;").scope = Scope.unknown ∧
      (scanLineScripts "red" ⟨Scope.unknown, 0, []⟩ "  --red-1: #FF0000;").tbl = []) :=
  ⟨claim_C3.1 ":root \x7b" Scope.unknown 0 (by decide) (by decide) (by decide),
   claim_C3.2.1 "  --red-1: #FF0000;" Scope.light 2 (by decide) (by decide) (by decide)
     (by decide) (Or.inl rfl),
   claim_C3.2.2.1 "red" ⟨Scope.light, 1, []⟩ "\x7d" (Or.inl (by decide)) (by decide),
   claim_C3.2.2.2 "red" ⟨Scope.unknown, 0, []⟩ "  --red-1: #FF0000;" (by decide)⟩

end Radix


namespace Radix

/-! ## First-wins slot policy of the four-slot scanner -/

/-- The four slots of a merged record. -/
inductive SlotId where
  | lightSrgb
  | lightP3
  | darkSrgb
  | darkP3
deriving Repr, DecidableEq

def slotOf : SlotId → ParsedColorValue → Option String
  | .lightSrgb, pv => pv.light.srgb
  | .lightP3, pv => pv.light.p3
  | .darkSrgb, pv => pv.dark.srgb
  | .darkP3, pv => pv.dark.p3

theorem assignSlotP3_preserves {s : SlotId} {pv : ParsedColorValue} {v : String}
    (sc : Scope) (val : String) (hs : slotOf s pv = some v) :
    slotOf s (assignSlotP3 sc val pv) = some v := by
  cases sc <;> cases s <;> unfold assignSlotP3 <;> simp only [slotOf] at hs ⊢ <;>
    (try split_ifs) <;> simp_all

theorem combinedLookup_ensureKey {α : Type} {tbl : List (String × α)} {k' : String} {pv : α}
    (k : String) (init : α) (h : combinedLookup tbl k' = some pv) :
    combinedLookup (ensureKey tbl k init) k' = some pv := by
  unfold ensureKey
  split
  · exact h
  · unfold combinedLookup at h ⊢
    rw [List.find?_append]
    cases hf : tbl.find? (fun e => e.1 = k') with
    | none => rw [hf] at h; cases h
    | some e => rw [hf] at h; simpa using h

theorem combinedLookup_updateKey {α : Type} {tbl : List (String × α)} {k' : String} {pv : α}
    (k : String) (f : α → α) (h : combinedLookup tbl k' = some pv) :
    combinedLookup (updateKey tbl k f) k' = some (if k' = k then f pv else pv) := by
  induction tbl with
  | nil => cases h
  | cons e t ih =>
    unfold combinedLookup at h ih ⊢
    unfold updateKey at ih ⊢
    rw [List.map_cons]
    by_cases he : e.1 = k'
    · have h1 : List.find? (fun x => x.1 = k') (e :: t) = some e :=
        List.find?_cons_of_pos _ (by simp [he])
      rw [h1] at h
      have hpv : e.2 = pv := by simpa using h
      by_cases hek : e.1 = k
      · have hkk : k' = k := by rw [← he]; exact hek
        have h2 : List.find? (fun x => x.1 = k')
            ((if e.1 = k then (e.1, f e.2) else e) ::
              List.map (fun x => if x.1 = k then (x.1, f x.2) else x) t) =
            some (e.1, f e.2) := by
          rw [if_pos hek]
          exact List.find?_cons_of_pos _ (by simp [he])
        rw [h2]
        simp [hkk, hpv]
      · have hkk : ¬(k' = k) := by
          intro hc
          exact hek (by rw [he]; exact hc)
        have h2 : List.find? (fun x => x.1 = k')
            ((if e.1 = k then (e.1, f e.2) else e) ::
              List.map (fun x => if x.1 = k then (x.1, f x.2) else x) t) =
            some e := by
          rw [if_neg hek]
          exact List.find?_cons_of_pos _ (by simp [he])
        rw [h2]
        simp [hkk, hpv]
    · have h1 : List.find? (fun x => x.1 = k') (e :: t) = List.find? (fun x => x.1 = k') t :=
        List.find?_cons_of_neg _ (by simp [he])
      rw [h1] at h
      have ih' := ih h
      have h2 : List.find? (fun x => x.1 = k')
          ((if e.1 = k then (e.1, f e.2) else e) ::
            List.map (fun x => if x.1 = k then (x.1, f x.2) else x) t) =
          List.find? (fun x => x.1 = k')
            (List.map (fun x => if x.1 = k then (x.1, f x.2) else x) t) := by
        apply List.find?_cons_of_neg
        split <;> simp [he]
      rw [h2]
      exact ih'

theorem scanLineP3_tbl_shape (es : String) (st : ScanStP3) (line : String) :
    (scanLineP3 es st line).tbl = st.tbl ∨
    ∃ vn val sc, (scanLineP3 es st line).tbl =
      updateKey (ensureKey st.tbl vn emptyParsedColorValue) vn (assignSlotP3 sc val) := by
  unfold scanLineP3
  dsimp only
  split <;> dsimp only <;> split <;> (try split) <;> (try split) <;> (try split) <;>
    first
      | exact Or.inl rfl
      | exact Or.inr ⟨_, _, _, rfl⟩

theorem scanLineP3_slot_preserved {es : String} {st : ScanStP3} {line k v : String}
    {s : SlotId} {pv : ParsedColorValue} (h : combinedLookup st.tbl k = some pv)
    (hs : slotOf s pv = some v) :
    ∃ pv', combinedLookup (scanLineP3 es st line).tbl k = some pv' ∧ slotOf s pv' = some v := by
  rcases scanLineP3_tbl_shape es st line with he | ⟨vn, val, sc, he⟩
  · rw [he]
    exact ⟨pv, h, hs⟩
  · rw [he]
    by_cases hk : k = vn
    · subst hk
      have h1 := combinedLookup_ensureKey k emptyParsedColorValue h
      have h2 := combinedLookup_updateKey k (assignSlotP3 sc val) h1
      rw [if_pos rfl] at h2
      exact ⟨_, h2, assignSlotP3_preserves sc val hs⟩
    · have h1 := combinedLookup_ensureKey vn emptyParsedColorValue h
      have h2 := combinedLookup_updateKey vn (assignSlotP3 sc val) h1
      rw [if_neg hk] at h2
      exact ⟨pv, h2, hs⟩

end Radix

namespace Radix

theorem scanLinesP3_slot_preserved {k v : String} {s : SlotId} (es : String)
    (lines : List String) :
    ∀ (st : ScanStP3) (pv : ParsedColorValue), combinedLookup st.tbl k = some pv →
    slotOf s pv = some v →
    ∃ pv', combinedLookup ((lines.foldl (scanLineP3 es) st).tbl) k = some pv' ∧
      slotOf s pv' = some v := by
  induction lines with
  | nil => exact fun st pv h hs => ⟨pv, h, hs⟩
  | cons l t ih =>
    intro st pv h hs
    rcases @scanLineP3_slot_preserved es st l k v s pv h hs with ⟨pv1, h1, hs1⟩
    exact ih _ pv1 h1 hs1

theorem scanFileP3_slot_preserved {k v : String} {s : SlotId} {pv : ParsedColorValue}
    (es : String) {tbl : List (String × ParsedColorValue)} (text : String)
    (h : combinedLookup tbl k = some pv) (hs : slotOf s pv = some v) :
    ∃ pv', combinedLookup (scanFileP3 es tbl text) k = some pv' ∧ slotOf s pv' = some v := by
  unfold scanFileP3
  split
  · exact ⟨pv, h, hs⟩
  · exact scanLinesP3_slot_preserved es _ ⟨Scope.unknown, 0, tbl⟩ pv h hs

theorem filesFoldP3_slot_preserved {k v : String} {s : SlotId} (bn : String)
    (post : List (Option String)) :
    ∀ (tbl : List (String × ParsedColorValue)) (pv : ParsedColorValue),
    combinedLookup tbl k = some pv → slotOf s pv = some v →
    ∃ pv', combinedLookup
      (post.foldl
        (fun tb f => match f with
          | none => tb
          | some text => scanFileP3 (expectedStemName bn) tb text) tbl) k = some pv' ∧
      slotOf s pv' = some v := by
  induction post with
  | nil => exact fun tbl pv h hs => ⟨pv, h, hs⟩
  | cons f t ih =>
    intro tbl pv h hs
    cases f with
    | none => exact ih tbl pv h hs
    | some text =>
      rcases scanFileP3_slot_preserved (expectedStemName bn) text h hs with ⟨pv1, h1, hs1⟩
      exact ih _ pv1 h1 hs1

/-- C4: each of a record's four slots is first-wins. Once a slot holds
a value — after any single line, or after any prefix of the group's
source files — no later line or file changes it, so only the
first-encountered value for a slot survives into the merged table. -/
theorem claim_C4 :
    (∀ (es : String) (st : ScanStP3) (line k v : String) (s : SlotId)
      (pv : ParsedColorValue), combinedLookup st.tbl k = some pv → slotOf s pv = some v →
      ∃ pv', combinedLookup (scanLineP3 es st line).tbl k = some pv' ∧
        slotOf s pv' = some v) ∧
    (∀ (bn : String) (pre post : List (Option String)) (k v : String) (s : SlotId)
      (pv : ParsedColorValue),
      combinedLookup (scanFilesP3 bn pre) k = some pv → slotOf s pv = some v →
      ∃ pv', combinedLookup (scanFilesP3 bn (pre ++ post)) k = some pv' ∧
        slotOf s pv' = some v) := by
  constructor
  · intro es st line k v s pv h hs
    exact scanLineP3_slot_preserved h hs
  · intro bn pre post k v s pv h hs
    unfold scanFilesP3 at h ⊢
    rw [List.foldl_append]
    exact filesFoldP3_slot_preserved bn post _ pv h hs

/-- Closed instance of C4: two source files both define `--red-1`
(light); after scanning both, the slot still holds the first file's
value. -/
theorem claim_C4_witness :
    ∃ pv', combinedLookup (scanFilesP3 "red"
      ([some ":root \x7b\n  --red-1: #111111;\n\x7d"] ++
        [some ":root \x7b\n  --red-1: #222222;\n\x7d"])) "--red-1" = some pv' ∧
      slotOf SlotId.lightSrgb pv' = some "#111111" :=
  claim_C4.2 "red" [some ":root \x7b\n  --red-1: #111111;\n\x7d"]
    [some ":root \x7b\n  --red-1: #222222;\n\x7d"] "--red-1" "#111111" SlotId.lightSrgb
    ⟨⟨some "#111111", none⟩, ⟨none, none⟩⟩ rfl rfl

end Radix

namespace Radix

theorem hsla_ok_shape {s : String} {hc sc lc ac : List Char} {h0 s0 l0 a : Int}
    (hm : searchL hslaMatchAt s.data = some (hc, sc, lc, ac))
    (h1 : parseFloatFP hc = some h0) (h2 : parseFloatFP sc = some s0)
    (h3 : parseFloatFP lc = some l0) (h4 : parseFloatFP ac = some a) :
    ∃ r255 g255 b255 : Int, hslaStringToOklchString s =
      .ok (oklchTextOf (rgbToOklchRounded (fpOfInt r255) (fpOfInt g255) (fpOfInt b255)) ++
        (if round3 a ≠ 1000 then " / " ++ fmtThousandths (round3 a) else "")) := by
  unfold hslaStringToOklchString
  rw [hm]
  dsimp only
  rw [h1, h2, h3, h4]
  exact ⟨_, _, _, rfl⟩

set_option maxRecDepth 100000 in
/-- C6 counterexample: the 8-digit hex path appends the alpha segment
unconditionally, so `#FF0000FF`, whose alpha byte 255 rounds to exactly
1, is still rendered with a `/ 1` suffix instead of omitting it. -/
theorem claim_C6_counterexample :
    roundAlphaByte 255 = 1000 ∧
    convertFallback "#FF0000FF" = ConvOutcome.success "0.628 0.258 29.234 / 1" :=
  ⟨rfl, rfl⟩

/-- C6 (amended): for RGBA and HSLA literals the alpha component is
rounded to 3 decimals and the `/ alpha` segment is omitted exactly when
the rounded alpha is 1, appended otherwise; but for an 8-digit hex
literal the alpha byte, decoded from [0,255] with 3-decimal rounding,
is appended unconditionally — including `/ 1` when it rounds to
exactly 1 (see the counterexample). -/
theorem claim_C6 :
    (∀ (s : String) (c1 c2 c3 c4 : List Char) (r g b a : Int),
      searchL rgbaMatchAt s.data = some (c1, c2, c3, c4) →
      parseFloatFP c1 = some r → parseFloatFP c2 = some g →
      parseFloatFP c3 = some b → parseFloatFP c4 = some a →
      (round3 a = 1000 →
        rgbaStringToOklchString s = some (oklchTextOf (rgbToOklchRounded r g b))) ∧
      (round3 a ≠ 1000 →
        rgbaStringToOklchString s = some (oklchTextOf (rgbToOklchRounded r g b) ++
          (" / " ++ fmtThousandths (round3 a))))) ∧
    (∀ (s : String) (hc sc lc ac : List Char) (h0 s0 l0 a : Int),
      searchL hslaMatchAt s.data = some (hc, sc, lc, ac) →
      parseFloatFP hc = some h0 → parseFloatFP sc = some s0 →
      parseFloatFP lc = some l0 → parseFloatFP ac = some a →
      ∃ r255 g255 b255 : Int,
        (round3 a = 1000 → hslaStringToOklchString s =
          .ok (oklchTextOf (rgbToOklchRounded (fpOfInt r255) (fpOfInt g255) (fpOfInt b255)))) ∧
        (round3 a ≠ 1000 → hslaStringToOklchString s =
          .ok (oklchTextOf (rgbToOklchRounded (fpOfInt r255) (fpOfInt g255) (fpOfInt b255)) ++
            (" / " ++ fmtThousandths (round3 a))))) ∧
    (∀ (v oklch : String) (alpha : Int), v.data.length = 9 →
      hexToOklchString v = .ok oklch → jsParseIntHexL (v.data.drop 7) = some alpha →
      convertFallback v = .success (oklch ++ " / " ++ fmtThousandths (roundAlphaByte alpha))) := by
  refine ⟨?_, ?_, ?_⟩
  · intro s c1 c2 c3 c4 r g b a hm h1 h2 h3 h4
    unfold rgbaStringToOklchString
    rw [hm]
    dsimp only
    rw [h1, h2, h3, h4]
    dsimp only
    constructor
    · intro hr
      rw [if_neg (by simp [hr])]
      simp
    · intro hr
      rw [if_pos (by simp [hr])]
  · intro s hc sc lc ac h0 s0 l0 a hm h1 h2 h3 h4
    rcases hsla_ok_shape hm h1 h2 h3 h4 with ⟨r255, g255, b255, heq⟩
    refine ⟨r255, g255, b255, ?_, ?_⟩
    · intro hr
      rw [heq, if_neg (by simp [hr])]
      simp
    · intro hr
      rw [heq, if_pos (by simp [hr])]
  · intro v oklch alpha hlen hok halpha
    have hstart : strStartsWith v "#" = true := by
      unfold hexToOklchString at hok
      by_cases hs : strStartsWith v "#" = true
      · exact hs
      · rw [if_pos (by simp [hs])] at hok
        cases hok
    unfold convertFallback
    rw [if_pos hstart, hok]
    dsimp only
    rw [if_pos hlen, halpha]

set_option maxRecDepth 100000 in
/-- Closed instance of the amended C6: a half-transparent RGBA literal
gets its `/ 0.5` suffix; an 8-digit hex with alpha byte 128 gets
`/ 0.502` appended via the alpha-byte decoding. -/
theorem claim_C6_witness :
    ((round3 (500000000000000000000000000000 : Int) = 1000 →
      rgbaStringToOklchString "rgba(255, 0, 0, 0.5)" =
        some (oklchTextOf (rgbToOklchRounded (255 * fpS) (0 * fpS) (0 * fpS)))) ∧
    (round3 (500000000000000000000000000000 : Int) ≠ 1000 →
      rgbaStringToOklchString "rgba(255, 0, 0, 0.5)" =
        some (oklchTextOf (rgbToOklchRounded (255 * fpS) (0 * fpS) (0 * fpS)) ++
          (" / " ++ fmtThousandths (round3 (500000000000000000000000000000 : Int)))))) ∧
    convertFallback "#FF000080" =
      ConvOutcome.success ("0.628 0.258 29.234" ++ " / " ++ fmtThousandths (roundAlphaByte 128)) :=
  ⟨claim_C6.1 "rgba(255, 0, 0, 0.5)" "255".data "0".data "0".data "0.5".data
      (255 * fpS) (0 * fpS) (0 * fpS) (500000000000000000000000000000 : Int)
      rfl rfl rfl rfl rfl,
   claim_C6.2.2 "#FF000080" "0.628 0.258 29.234" 128 rfl rfl rfl⟩

end Radix

namespace Radix

set_option maxRecDepth 1000000 in
/-- C7: malformed literals make the converter fail with the
format-mismatch error (`#F00`, `FF0000`, `#GGGFFF` all fail); on a
thrown conversion the emitter only appends a log entry — every output
line list is left untouched, so the failed value reaches no output
block — and the loop keeps processing the remaining variables: in the
two-record demo the bad `#F00` record contributes only a log line
while `--red-9` is still emitted, and `#F00` occurs nowhere in the
emitted document. -/
theorem claim_C7 :
    hexToOklchString "#F00" = .error "Invalid hex code format: #F00" ∧
    hexToOklchString "FF0000" = .error "Invalid hex code format: FF0000" ∧
    hexToOklchString "#GGGFFF" =
      .error "Invalid hex code format (contains non-hex characters): #GGGFFF" ∧
    (∀ v : String, (strStartsWith v "#" = false ∨ (v.data.length ≠ 7 ∧ v.data.length ≠ 9)) →
      hexToOklchString v = .error ("Invalid hex code format: " ++ v)) ∧
    (∀ v : String, searchL hslaMatchAt v.data = none →
      hslaStringToOklchString v = .error ("Invalid HSLA string format: " ++ v)) ∧
    (∀ (bn idx vn lv : String) (st : EmitState) (msg : String),
      convertFallback lv = ConvOutcome.thrown msg →
      procLightSrgb bn idx vn lv st = { st with logs := st.logs ++
        ["Error converting light value for " ++ vn ++ ": " ++ lv ++ " | " ++ msg] } ∧
      procDarkSrgb bn idx vn lv st = { st with logs := st.logs ++
        ["Error converting dark value for " ++ vn ++ ": " ++ lv ++ " | " ++ msg] }) ∧
    (emitLoop "red" [("--red-1", ⟨⟨some "#F00", none⟩, ⟨none, none⟩⟩),
        ("--red-9", ⟨⟨some "#FF0000", none⟩, ⟨none, none⟩⟩)]).light =
      ["  --radix-rgb-red-9: 0.628 0.258 29.234;"] ∧
    (emitLoop "red" [("--red-1", ⟨⟨some "#F00", none⟩, ⟨none, none⟩⟩),
        ("--red-9", ⟨⟨some "#FF0000", none⟩, ⟨none, none⟩⟩)]).logs =
      ["Error converting light value for --red-1: #F00 | Invalid hex code format: #F00"] ∧
    ¬ strContains (constructCss "red" [("--red-1", ⟨⟨some "#F00", none⟩, ⟨none, none⟩⟩),
        ("--red-9", ⟨⟨some "#FF0000", none⟩, ⟨none, none⟩⟩)]) "#F00" := by
  refine ⟨rfl, rfl, rfl, ?_, ?_, ?_, rfl, rfl, by decide⟩
  · intro v h
    unfold hexToOklchString
    rw [if_pos ?_]
    simp only [Bool.or_eq_true, Bool.and_eq_true, Bool.not_eq_true', decide_eq_true_eq]
    rcases h with h | ⟨h7, h9⟩
    · exact Or.inl h
    · exact Or.inr ⟨h7, h9⟩
  · intro v hm
    unfold hslaStringToOklchString
    rw [hm]
  · intro bn idx vn lv st msg hconv
    constructor
    · unfold procLightSrgb
      rw [hconv]
    · unfold procDarkSrgb
      rw [hconv]

/-- Closed instance of C7's conditional clauses: a 4-character hex
literal fails; a non-HSLA string fed to the HSLA converter fails; a
thrown conversion turns into exactly one log entry on the empty
state. -/
theorem claim_C7_witness :
    hexToOklchString "#ABCD" = .error ("Invalid hex code format: " ++ "#ABCD") ∧
    hslaStringToOklchString "hsla(oops" =
      .error ("Invalid HSLA string format: " ++ "hsla(oops") ∧
    procLightSrgb "red" "1" "--red-1" "#F00" emptyEmitState =
      { emptyEmitState with logs := emptyEmitState.logs ++
        ["Error converting light value for " ++ "--red-1" ++ ": " ++ "#F00" ++ " | " ++
          "Invalid hex code format: #F00"] } :=
  ⟨claim_C7.2.2.2.1 "#ABCD" (Or.inr (by constructor <;> decide)),
   claim_C7.2.2.2.2.1 "hsla(oops" rfl,
   (claim_C7.2.2.2.2.2.1 "red" "1" "--red-1" "#F00" emptyEmitState
     "Invalid hex code format: #F00" rfl).1⟩

end Radix

namespace Radix

/-- C8 counterexample: with zero usable css files the scripts
orchestrator does not abort — it still produces the manifest write
(`radix-colors.css` holding just the header), so an output file is
written despite there being no sources; only the legacy orchestrator
fails fatally. -/
theorem claim_C8_counterexample :
    scriptsMain ["readme.md"] (fun _ => none) =
      [("radix-colors.css", headerComment ++ "\n")] ∧
    legacyMain ["readme.md"] (fun _ => "") =
      .error "No CSS files found in package `@radix-ui/colors`. It is probably broken after updating the package." :=
  ⟨rfl, rfl⟩

/-- C8 (amended): when the artifact listing contains zero css files,
the legacy orchestrator fails with the no-CSS error before producing
any write, but the scripts orchestrator performs no such check: it
still emits exactly one write, the `radix-colors.css` manifest
consisting of the header alone (see the counterexample). -/
theorem claim_C8 (listing : List String)
    (h : listing.filter (fun f => strEndsWith f ".css") = []) :
    (∀ readFile : String → String, legacyMain listing readFile =
      .error "No CSS files found in package `@radix-ui/colors`. It is probably broken after updating the package.") ∧
    (∀ readFile : String → Option String, scriptsMain listing readFile =
      [("radix-colors.css", headerComment ++ "\n")]) := by
  constructor
  · intro readFile
    unfold legacyMain
    rw [h]
    rfl
  · intro readFile
    unfold scriptsMain
    rw [h]
    rfl

/-- Closed instance of the amended C8 on a css-free listing. -/
theorem claim_C8_witness :
    (∀ readFile : String → String, legacyMain ["notes.txt"] readFile =
      .error "No CSS files found in package `@radix-ui/colors`. It is probably broken after updating the package.") ∧
    (∀ readFile : String → Option String, scriptsMain ["notes.txt"] readFile =
      [("radix-colors.css", headerComment ++ "\n")]) :=
  claim_C8 ["notes.txt"] rfl

end Radix
